import Mathlib

/-!
Verification of the ETL normalization pipeline.

This file gives a shallow embedding of the normalization core of the
repository: the statement normalizer (`Financilas.py`), the profile
normalizer (`Summary.py`), the JSON payload parser shared by both, the
schema reconciler (`ensure_financials_table`) and the ingestion-side JSON
sanitizer (`details.py` `clean_json`).  Python exceptions are modelled with
`Except`, the current UTC time is passed explicitly, and library calls
(`json.loads`, the unicode-escape re-decode) are passed as explicit function
arguments where their internals do not matter.
-/

/-- Python float values, abstracting the IEEE content: NaN, the two
infinities, or a finite value. -/
inductive PFloat where
  | nan
  | inf
  | ninf
  | finite (q : ℚ)
deriving DecidableEq

/-- math.isnan. -/
def PFloat.isNan : PFloat → Bool
  | .nan => true
  | _ => false

/-- math.isinf. -/
def PFloat.isInf : PFloat → Bool
  | .inf => true
  | .ninf => true
  | _ => false

/-- A calendar date, as produced by datetime parsing (`d.date()`). -/
structure PyDate where
  year : Nat
  month : Nat
  day : Nat
deriving DecidableEq

/-- Digit run to a natural number, most significant first. -/
def digitsToNat (l : List Char) : Nat :=
  l.foldl (fun acc c => 10 * acc + (c.toNat - '0'.toNat)) 0

/-- Gregorian leap-year rule, as implemented by Python's datetime. -/
def isLeapYear (y : Nat) : Bool :=
  y % 4 = 0 && (y % 100 != 0 || y % 400 = 0)

/-- Number of days in a month, as validated by Python's datetime. -/
def daysInMonth (y m : Nat) : Nat :=
  if m = 2 then (if isLeapYear y then 29 else 28)
  else if m = 4 || m = 6 || m = 9 || m = 11 then 30
  else 31

/-- Validity check a datetime constructor performs on parsed components. -/
def validDate (y m d : Nat) : Bool :=
  1 ≤ y && y ≤ 9999 && 1 ≤ m && m ≤ 12 && 1 ≤ d && d ≤ daysInMonth y m

/-- Construction of a date value, failing (a ValueError) on components that
do not form a calendar date. -/
def mkValidDate (y m d : Nat) : Option PyDate :=
  if validDate y m d then some ⟨y, m, d⟩ else none

/-- Guard: a parse attempt succeeds only when its format condition holds. -/
def dateGuard (c : Bool) (v : Option PyDate) : Option PyDate :=
  if c then v else none

/-- Models datetime.strptime(s, "%Y-%m-%d"): a run of one to four digits,
a dash, one or two digits, a dash, one or two digits, consuming the whole
input, followed by calendar validity checking.  (strptime accepts
non-zero-padded fields, which is why runs of one digit are allowed.) -/
def strptime_Ymd (l : List Char) : Option PyDate :=
  let ys := l.takeWhile Char.isDigit
  match l.dropWhile Char.isDigit with
  | '-' :: r1 =>
    let ms := r1.takeWhile Char.isDigit
    match r1.dropWhile Char.isDigit with
    | '-' :: r2 =>
      let ds := r2.takeWhile Char.isDigit
      dateGuard
        ((r2.dropWhile Char.isDigit).isEmpty
          && 1 ≤ ys.length && ys.length ≤ 4
          && 1 ≤ ms.length && ms.length ≤ 2
          && 1 ≤ ds.length && ds.length ≤ 2)
        (mkValidDate (digitsToNat ys) (digitsToNat ms) (digitsToNat ds))
    | _ => none
  | _ => none

/-- Whitespace characters recognized by Python's str.strip / re `\s`
(restricted to the ASCII whitespace class). -/
def pyIsSpace (c : Char) : Bool :=
  c = ' ' || c = '\t' || c = '\n' || c = '\x0d' || c = '\x0b' || c = '\x0c'

/-- The token before the first whitespace (`s.split()[0]`); `none` models the
IndexError raised on a whitespace-only string, which the caller turns into a
skip. -/
def firstToken (l : List Char) : Option (List Char) :=
  let t := (l.dropWhile pyIsSpace).takeWhile (fun c => !pyIsSpace c)
  if t.isEmpty then none else some t

/-- Models datetime.fromisoformat on a whitespace-free token, restricted to
the common zero-padded YYYY-MM-DD form that arises in this pipeline. -/
def fromisoformat_date (l : List Char) : Option PyDate :=
  match l with
  | [y1, y2, y3, y4, '-', m1, m2, '-', d1, d2] =>
    dateGuard ([y1, y2, y3, y4, m1, m2, d1, d2].all Char.isDigit)
      (mkValidDate (digitsToNat [y1, y2, y3, y4]) (digitsToNat [m1, m2])
        (digitsToNat [d1, d2]))
  | _ => none

/-- Date parsing in normalize_financials: strict parse of the first ten
characters as %Y-%m-%d, falling back to an ISO parse of the token before the
first whitespace; `none` means the whole date group is skipped silently. -/
def parse_statement_date (s : String) : Option PyDate :=
  match strptime_Ymd (s.data.take 10) with
  | some d => some d
  | none =>
    match firstToken s.data with
    | some t => fromisoformat_date t
    | none => none

/-- quarter_from_date from Financilas.py: `(d.month - 1)//3 + 1`. -/
def quarter_from_date (d : PyDate) : Nat :=
  (d.month - 1) / 3 + 1

/-- JSON-like values as decoded by json.loads: null, booleans, numbers
(integral or floating), strings, arrays and string-keyed objects. -/
inductive JVal where
  | null
  | bool (b : Bool)
  | int (n : Int)
  | float (f : PFloat)
  | str (s : String)
  | arr (elems : List JVal)
  | obj (entries : List (String × JVal))

/-- Python truthiness of a decoded JSON value. -/
def jTruthy : JVal → Bool
  | .null => false
  | .bool b => b
  | .int n => n != 0
  | .float f => match f with | .finite q => q != 0 | _ => true
  | .str s => s != ""
  | .arr es => !es.isEmpty
  | .obj es => !es.isEmpty

/-- Python `a or b` on decoded values. -/
def pyOrJ (a b : JVal) : JVal :=
  if jTruthy a then a else b

/-- The entry list of an object; empty for every other value. -/
def objEntries : JVal → List (String × JVal)
  | .obj es => es
  | _ => []

/-- dict.get(k, default); an AttributeError on a non-dict receiver is
modelled as `Except.error`. -/
def jGetD (v : JVal) (k : String) (d : JVal) : Except Unit JVal :=
  match v with
  | .obj es => .ok ((es.lookup k).getD d)
  | _ => .error ()

/-- dict.items(); an AttributeError on a non-dict receiver is modelled as
`Except.error`. -/
def jItems : JVal → Except Unit (List (String × JVal))
  | .obj es => .ok es
  | _ => .error ()

/-- Total variant of dict.get(k) (default None), used to state hypotheses;
it agrees with `jGetD` whenever the receiver is a dict. -/
def jLookTotal (v : JVal) (k : String) : JVal :=
  ((objEntries v).lookup k).getD .null

/-- One row of the financials table, as built by normalize_financials. -/
structure FinRow where
  stock : String
  yf_name : JVal
  statement_type : String
  metric : String
  stockcurrency : JVal
  financialcurrency : JVal
  calendar_year : Nat
  period : Nat
  value : JVal
  date : PyDate

/-- The per-company fields read from `info` before the statement loops. -/
structure FinCtx where
  symbol : String
  yf_name : JVal
  stockcurrency : JVal
  financialcurrency : JVal

/-- Values skipped because they are nested structures. -/
def isDictOrList : JVal → Bool
  | .obj _ => true
  | .arr _ => true
  | _ => false

/-- NaN/Infinity floats are coerced to null before emission. -/
def coerce_value (v : JVal) : JVal :=
  match v with
  | .float f => if f.isNan || f.isInf then .null else .float f
  | _ => v

/-- Builds one emitted row. -/
def mkFinRow (ctx : FinCtx) (stype : String) (year per : Nat) (d : PyDate)
    (metric : String) (v : JVal) : FinRow :=
  ⟨ctx.symbol, ctx.yf_name, stype, metric, ctx.stockcurrency,
   ctx.financialcurrency, year, per, v, d⟩

/-- The inner metric loop of normalize_financials: iterate
`(metrics or {}).items()`, skipping empty metric names and nested values,
coercing NaN/Infinity to null. -/
def metric_rows (ctx : FinCtx) (stype : String) (year per : Nat) (d : PyDate)
    (metrics : JVal) : Except Unit (List FinRow) := do
  let ents ← jItems (pyOrJ metrics (.obj []))
  pure (ents.filterMap fun kv =>
    if kv.1 = "" then none
    else if isDictOrList kv.2 then none
    else some (mkFinRow ctx stype year per d kv.1 (coerce_value kv.2)))

/-- `period = 4 if freq == "yearly" else quarter_from_date(d)`. -/
def period_of (freq : String) (d : PyDate) : Nat :=
  if freq = "yearly" then 4 else quarter_from_date d

/-- One date group: parse the date key (skipping the group on failure) and
emit its metric rows. -/
def date_group_rows (ctx : FinCtx) (stype freq : String) (dt_str : String)
    (metrics : JVal) : Except Unit (List FinRow) :=
  match parse_statement_date dt_str with
  | none => .ok []
  | some d => metric_rows ctx stype d.year (period_of freq d) d metrics

/-- Sequential accumulation over a list of groups; a Python exception raised
mid-loop discards the partial output, modelled by `Except` short-circuiting. -/
def collectE {α β : Type} (f : α → Except Unit (List β)) :
    List α → Except Unit (List β)
  | [] => .ok []
  | x :: xs => do
    let r ← f x
    let rest ← collectE f xs
    pure (r ++ rest)

/-- One periodicity block: `freq_block = block.get(freq) or {}`, then the
date-group loop over its items. -/
def freq_rows (ctx : FinCtx) (stype freq : String) (fbRaw : JVal) :
    Except Unit (List FinRow) := do
  let ents ← jItems (pyOrJ fbRaw (.obj []))
  collectE (fun kv => date_group_rows ctx stype freq kv.1 kv.2) ents

/-- One statement section: `block = (info_json or {}).get(folder) or {}`,
then the yearly block followed by the quarterly block. -/
def folder_rows (ctx : FinCtx) (root : JVal) (folder stype : String) :
    Except Unit (List FinRow) := do
  let b0 ← jGetD root folder .null
  let block := pyOrJ b0 (.obj [])
  let fy ← jGetD block "yearly" .null
  let ry ← freq_rows ctx stype "yearly" fy
  let fq ← jGetD block "quarterly" .null
  let rq ← freq_rows ctx stype "quarterly" fq
  pure (ry ++ rq)

/-- normalize_financials from Financilas.py: read the per-company info
fields, then flatten the three statement sections (cashflow → CF,
incomestatement → IS, balancesheet → BS) at both periodicities. -/
def normalize_financials (symbol : String) (info_json : JVal) :
    Except Unit (List FinRow) := do
  let root := pyOrJ info_json (.obj [])
  let i0 ← jGetD root "info" (.obj [])
  let info := pyOrJ i0 (.obj [])
  let stockcurrency ← jGetD info "currency" .null
  let fc1 ← jGetD info "financialCurrency" .null
  let fc2 ← jGetD info "financialcurrency" .null
  let n1 ← jGetD info "longName" .null
  let n2 ← jGetD info "shortName" .null
  let n3 ← jGetD info "displayName" .null
  let ctx : FinCtx :=
    ⟨symbol, pyOrJ (pyOrJ n1 n2) n3, stockcurrency, pyOrJ fc1 fc2⟩
  let r1 ← folder_rows ctx root "cashflow" "CF"
  let r2 ← folder_rows ctx root "incomestatement" "IS"
  let r3 ← folder_rows ctx root "balancesheet" "BS"
  pure (r1 ++ r2 ++ r3)

/-- The natural key of an emitted row. -/
def finKey (r : FinRow) : String × String × String × PyDate :=
  (r.stock, r.statement_type, r.metric, r.date)

/-- The dates (in iteration order) that parse successfully among the keys of
one periodicity block, after the `or {}` defaulting. -/
def freq_dates (fbRaw : JVal) : List PyDate :=
  (objEntries (pyOrJ fbRaw (.obj []))).filterMap
    (fun kv => parse_statement_date kv.1)

/-- The statement-section block of a payload, as normalize_financials
resolves it. -/
def section_block (p : JVal) (folder : String) : JVal :=
  pyOrJ (jLookTotal (pyOrJ p (.obj [])) folder) (.obj [])

/-- All successfully parsed dates of one statement section, yearly block
first then quarterly block. -/
def section_dates (p : JVal) (folder : String) : List PyDate :=
  freq_dates (jLookTotal (section_block p folder) "yearly")
    ++ freq_dates (jLookTotal (section_block p folder) "quarterly")

/-- Keys of the metric dicts are pairwise distinct, as they are for any
Python dict; stated over the blocks of one statement section. -/
def metrics_keys_ok (p : JVal) (folder : String) : Prop :=
  ∀ freq ∈ ["yearly", "quarterly"],
    ∀ kv ∈ objEntries (pyOrJ (jLookTotal (section_block p folder) freq) (.obj [])),
      ((objEntries (pyOrJ kv.2 (.obj []))).map Prod.fst).Nodup

instance (p : JVal) (folder : String) : Decidable (metrics_keys_ok p folder) := by
  unfold metrics_keys_ok
  infer_instance

/-! ### Inversion and validity lemmas for the statement normalizer -/

theorem exceptBind_ok {α β : Type} {e : Except Unit α} {f : α → Except Unit β}
    {b : β} (h : (e >>= f) = .ok b) : ∃ a, e = .ok a ∧ f a = .ok b := by
  cases e with
  | error u => simp [Bind.bind, Except.bind] at h
  | ok a => exact ⟨a, rfl, by simpa [Bind.bind, Except.bind] using h⟩

theorem validDate_month {y m d : Nat} (h : validDate y m d = true) :
    1 ≤ m ∧ m ≤ 12 := by
  simp only [validDate, Bool.and_eq_true, decide_eq_true_eq] at h
  omega

theorem mkValidDate_valid {y m dd : Nat} {d : PyDate}
    (h : mkValidDate y m dd = some d) :
    validDate d.year d.month d.day = true := by
  unfold mkValidDate at h
  split at h
  · cases h
    assumption
  · cases h

theorem dateGuard_some {c : Bool} {v : Option PyDate} {d : PyDate}
    (h : dateGuard c v = some d) : v = some d := by
  cases c
  · cases h
  · exact h

theorem strptime_Ymd_valid {l : List Char} {d : PyDate}
    (h : strptime_Ymd l = some d) :
    validDate d.year d.month d.day = true := by
  unfold strptime_Ymd at h
  repeat split at h
  all_goals first
    | cases h
    | exact mkValidDate_valid (dateGuard_some h)

theorem fromisoformat_date_valid {l : List Char} {d : PyDate}
    (h : fromisoformat_date l = some d) :
    validDate d.year d.month d.day = true := by
  unfold fromisoformat_date at h
  repeat split at h
  all_goals first
    | cases h
    | exact mkValidDate_valid (dateGuard_some h)

theorem parse_statement_date_valid {s : String} {d : PyDate}
    (h : parse_statement_date s = some d) :
    validDate d.year d.month d.day = true := by
  unfold parse_statement_date at h
  cases hs : strptime_Ymd (s.data.take 10) with
  | some d0 =>
    rw [hs] at h
    cases h
    exact strptime_Ymd_valid hs
  | none =>
    rw [hs] at h
    cases ht : firstToken s.data with
    | some t =>
      rw [ht] at h
      exact fromisoformat_date_valid h
    | none =>
      rw [ht] at h
      cases h

theorem jItems_ok {v : JVal} {ents : List (String × JVal)}
    (h : jItems v = .ok ents) : ents = objEntries v := by
  cases v <;> simp_all [jItems, objEntries]

theorem jGetD_ok {v : JVal} {k : String} {d x : JVal}
    (h : jGetD v k d = .ok x) : x = ((objEntries v).lookup k).getD d := by
  cases v <;> simp_all [jGetD, objEntries]

theorem metric_rows_fn_fields {ctx : FinCtx} {stype : String} {year per : Nat}
    {d : PyDate} {kv : String × JVal} {r : FinRow}
    (h : (if kv.1 = "" then none
          else if isDictOrList kv.2 then none
          else some (mkFinRow ctx stype year per d kv.1 (coerce_value kv.2)))
         = some r) :
    r.metric = kv.1 ∧ r.stock = ctx.symbol ∧ r.statement_type = stype ∧
      r.period = per ∧ r.date = d ∧ r.calendar_year = year := by
  split_ifs at h <;> simp_all [mkFinRow]
  subst h
  simp

theorem metric_rows_mem {ctx : FinCtx} {stype : String} {year per : Nat}
    {d : PyDate} {metrics : JVal} {rows : List FinRow}
    (h : metric_rows ctx stype year per d metrics = .ok rows) :
    ∀ r ∈ rows, r.stock = ctx.symbol ∧ r.statement_type = stype ∧
      r.calendar_year = year ∧ r.period = per ∧ r.date = d := by
  obtain ⟨ents, hents, h⟩ := exceptBind_ok h
  have hrows : rows = ents.filterMap fun kv =>
      if kv.1 = "" then none
      else if isDictOrList kv.2 then none
      else some (mkFinRow ctx stype year per d kv.1 (coerce_value kv.2)) := by
    simpa [pure, Except.pure] using h.symm
  intro r hr
  rw [hrows] at hr
  obtain ⟨kv, hkv, hf⟩ := List.mem_filterMap.mp hr
  obtain ⟨_, h1, h2, h3, h4, h5⟩ := metric_rows_fn_fields hf
  exact ⟨h1, h2, h5, h3, h4⟩

theorem metric_rows_pairwise {ctx : FinCtx} {stype : String} {year per : Nat}
    {d : PyDate} {metrics : JVal} {rows : List FinRow}
    (h : metric_rows ctx stype year per d metrics = .ok rows)
    (hnd : ((objEntries (pyOrJ metrics (.obj []))).map Prod.fst).Nodup) :
    rows.Pairwise (fun a b => a.metric ≠ b.metric) := by
  obtain ⟨ents, hents, h⟩ := exceptBind_ok h
  have hrows : rows = ents.filterMap fun kv =>
      if kv.1 = "" then none
      else if isDictOrList kv.2 then none
      else some (mkFinRow ctx stype year per d kv.1 (coerce_value kv.2)) := by
    simpa [pure, Except.pure] using h.symm
  have hents' := jItems_ok hents
  subst hents'
  rw [hrows, List.pairwise_filterMap]
  have hnd2 : (objEntries (pyOrJ metrics (JVal.obj []))).Pairwise
      (fun a b => a.1 ≠ b.1) := List.pairwise_map.mp hnd
  refine hnd2.imp ?_
  intro a b hab x hx y hy
  rw [(metric_rows_fn_fields hx).1, (metric_rows_fn_fields hy).1]
  exact hab

theorem collectE_cons_ok {α β : Type} {f : α → Except Unit (List β)} {x : α}
    {xs : List α} {res : List β} (h : collectE f (x :: xs) = .ok res) :
    ∃ r rest, f x = .ok r ∧ collectE f xs = .ok rest ∧ res = r ++ rest := by
  unfold collectE at h
  obtain ⟨r, hr, h⟩ := exceptBind_ok h
  obtain ⟨rest, hrest, h⟩ := exceptBind_ok h
  exact ⟨r, rest, hr, hrest, by simpa [pure, Except.pure] using h.symm⟩

theorem date_group_rows_mem {ctx : FinCtx} {stype freq dt_str : String}
    {metrics : JVal} {rows : List FinRow}
    (h : date_group_rows ctx stype freq dt_str metrics = .ok rows) :
    ∀ r ∈ rows, ∃ d, parse_statement_date dt_str = some d ∧ r.date = d ∧
      r.period = period_of freq d ∧ r.statement_type = stype ∧
      r.stock = ctx.symbol := by
  unfold date_group_rows at h
  cases hp : parse_statement_date dt_str with
  | none =>
    rw [hp] at h
    cases h
    intro r hr
    cases hr
  | some d =>
    rw [hp] at h
    intro r hr
    obtain ⟨h1, h2, _, h4, h5⟩ := metric_rows_mem h r hr
    exact ⟨d, rfl, h5, h4, h2, h1⟩

theorem date_group_rows_pairwise {ctx : FinCtx} {stype freq dt_str : String}
    {metrics : JVal} {rows : List FinRow}
    (h : date_group_rows ctx stype freq dt_str metrics = .ok rows)
    (hnd : ((objEntries (pyOrJ metrics (.obj []))).map Prod.fst).Nodup) :
    rows.Pairwise (fun a b => finKey a ≠ finKey b) := by
  unfold date_group_rows at h
  cases hp : parse_statement_date dt_str with
  | none =>
    rw [hp] at h
    cases h
    exact List.Pairwise.nil
  | some d =>
    rw [hp] at h
    refine (metric_rows_pairwise h hnd).imp ?_
    intro a b hab hk
    exact hab (congrArg (fun t => t.2.2.1) hk)

theorem group_rows_mem {ctx : FinCtx} {stype freq : String} :
    ∀ (ents : List (String × JVal)) (rows : List FinRow),
      collectE (fun kv => date_group_rows ctx stype freq kv.1 kv.2) ents
        = .ok rows →
      ∀ r ∈ rows, ∃ kv ∈ ents, ∃ d, parse_statement_date kv.1 = some d ∧
        r.date = d ∧ r.period = period_of freq d ∧ r.statement_type = stype ∧
        r.stock = ctx.symbol := by
  intro ents
  induction ents with
  | nil =>
    intro rows h r hr
    unfold collectE at h
    cases h
    cases hr
  | cons kv tl ih =>
    intro rows h r hr
    obtain ⟨rh, rt, hf, ht, hres⟩ := collectE_cons_ok h
    subst hres
    rcases List.mem_append.mp hr with h1 | h2
    · obtain ⟨d, hd, hrest⟩ := date_group_rows_mem hf r h1
      exact ⟨kv, List.mem_cons_self kv tl, d, hd, hrest⟩
    · obtain ⟨kv', hkv', rest⟩ := ih rt ht r h2
      exact ⟨kv', List.mem_cons_of_mem kv hkv', rest⟩

theorem group_rows_pairwise {ctx : FinCtx} {stype freq : String} :
    ∀ (ents : List (String × JVal)) (rows : List FinRow),
      collectE (fun kv => date_group_rows ctx stype freq kv.1 kv.2) ents
        = .ok rows →
      (ents.filterMap (fun kv => parse_statement_date kv.1)).Nodup →
      (∀ kv ∈ ents, ((objEntries (pyOrJ kv.2 (.obj []))).map Prod.fst).Nodup) →
      rows.Pairwise (fun a b => finKey a ≠ finKey b) := by
  intro ents
  induction ents with
  | nil =>
    intro rows h _ _
    unfold collectE at h
    cases h
    exact List.Pairwise.nil
  | cons kv tl ih =>
    intro rows h hnd hmk
    obtain ⟨rh, rt, hf, ht, hres⟩ := collectE_cons_ok h
    subst hres
    have hndtl : (tl.filterMap (fun kv => parse_statement_date kv.1)).Nodup := by
      rw [List.filterMap_cons] at hnd
      cases hp : parse_statement_date kv.1 with
      | none => rwa [hp] at hnd
      | some d =>
        rw [hp] at hnd
        exact hnd.of_cons
    refine List.pairwise_append.mpr
      ⟨date_group_rows_pairwise hf (hmk kv (List.mem_cons_self kv tl)),
       ih rt ht hndtl (fun kv' h' => hmk kv' (List.mem_cons_of_mem kv h')), ?_⟩
    intro a ha b hb
    obtain ⟨d, hd, hadate, -, -, -⟩ := date_group_rows_mem hf a ha
    obtain ⟨kv', hkv', d', hd', hbdate, -, -, -⟩ := group_rows_mem tl rt ht b hb
    have hmem : d' ∈ tl.filterMap (fun kv => parse_statement_date kv.1) :=
      List.mem_filterMap.mpr ⟨kv', hkv', hd'⟩
    have hne : d ≠ d' := by
      rw [List.filterMap_cons, hd] at hnd
      intro hcontra
      subst hcontra
      exact (List.nodup_cons.mp hnd).1 hmem
    intro hk
    apply hne
    rw [← hadate, ← hbdate]
    exact congrArg (fun t => t.2.2.2) hk

theorem freq_rows_mem {ctx : FinCtx} {stype freq : String} {fbRaw : JVal}
    {rows : List FinRow} (h : freq_rows ctx stype freq fbRaw = .ok rows) :
    ∀ r ∈ rows, r.date ∈ freq_dates fbRaw ∧ r.statement_type = stype ∧
      r.stock = ctx.symbol ∧ r.period = period_of freq r.date ∧
      validDate r.date.year r.date.month r.date.day = true := by
  unfold freq_rows at h
  obtain ⟨ents, hents, h⟩ := exceptBind_ok h
  have hents' := jItems_ok hents
  subst hents'
  intro r hr
  obtain ⟨kv, hkv, d, hd, hdate, hper, hst, hsym⟩ := group_rows_mem _ _ h r hr
  subst hdate
  exact ⟨List.mem_filterMap.mpr ⟨kv, hkv, hd⟩, hst, hsym, hper,
    parse_statement_date_valid hd⟩

theorem freq_rows_pairwise {ctx : FinCtx} {stype freq : String} {fbRaw : JVal}
    {rows : List FinRow} (h : freq_rows ctx stype freq fbRaw = .ok rows)
    (hnd : (freq_dates fbRaw).Nodup)
    (hmk : ∀ kv ∈ objEntries (pyOrJ fbRaw (.obj [])),
      ((objEntries (pyOrJ kv.2 (.obj []))).map Prod.fst).Nodup) :
    rows.Pairwise (fun a b => finKey a ≠ finKey b) := by
  unfold freq_rows at h
  obtain ⟨ents, hents, h⟩ := exceptBind_ok h
  have hents' := jItems_ok hents
  subst hents'
  exact group_rows_pairwise _ _ h hnd hmk

theorem folder_rows_spec {ctx : FinCtx} {p : JVal} {folder stype : String}
    {rows : List FinRow}
    (h : folder_rows ctx (pyOrJ p (.obj [])) folder stype = .ok rows) :
    (∀ r ∈ rows, r.statement_type = stype ∧ r.stock = ctx.symbol ∧
       validDate r.date.year r.date.month r.date.day = true ∧
       (r.period = 4 ∨ r.period = quarter_from_date r.date)) ∧
    ((section_dates p folder).Nodup → metrics_keys_ok p folder →
       rows.Pairwise (fun a b => finKey a ≠ finKey b)) := by
  unfold folder_rows at h
  obtain ⟨b0, hb0, h⟩ := exceptBind_ok h
  obtain ⟨fy, hfy, h⟩ := exceptBind_ok h
  obtain ⟨ry, hry, h⟩ := exceptBind_ok h
  obtain ⟨fq, hfq, h⟩ := exceptBind_ok h
  obtain ⟨rq, hrq, h⟩ := exceptBind_ok h
  have hrows : rows = ry ++ rq := by simpa [pure, Except.pure] using h.symm
  subst hrows
  have hb0' : b0 = jLookTotal (pyOrJ p (.obj [])) folder := jGetD_ok hb0
  have hblock : pyOrJ b0 (.obj []) = section_block p folder := by
    rw [hb0']
    rfl
  have hfy' : fy = jLookTotal (section_block p folder) "yearly" := by
    rw [jGetD_ok hfy, hblock]
    rfl
  have hfq' : fq = jLookTotal (section_block p folder) "quarterly" := by
    rw [jGetD_ok hfq, hblock]
    rfl
  subst hfy'
  subst hfq'
  constructor
  · intro r hr
    rcases List.mem_append.mp hr with h1 | h1
    · obtain ⟨-, hst, hsym, hper, hval⟩ := freq_rows_mem hry r h1
      refine ⟨hst, hsym, hval, Or.inl ?_⟩
      rw [hper]
      rfl
    · obtain ⟨-, hst, hsym, hper, hval⟩ := freq_rows_mem hrq r h1
      refine ⟨hst, hsym, hval, Or.inr ?_⟩
      rw [hper]
      rfl
  · intro hnd hmk
    unfold section_dates at hnd
    rw [List.nodup_append] at hnd
    obtain ⟨hndy, hndq, hdisj⟩ := hnd
    have hmky := hmk "yearly" (by simp)
    have hmkq := hmk "quarterly" (by simp)
    refine List.pairwise_append.mpr
      ⟨freq_rows_pairwise hry hndy hmky,
       freq_rows_pairwise hrq hndq hmkq, ?_⟩
    intro a ha b hb
    have hda := (freq_rows_mem hry a ha).1
    have hdb := (freq_rows_mem hrq b hb).1
    intro hk
    have : a.date = b.date := congrArg (fun t => t.2.2.2) hk
    rw [this] at hda
    exact hdisj hda hdb

theorem normalize_financials_inv {symbol : String} {p : JVal}
    {rows : List FinRow} (h : normalize_financials symbol p = .ok rows) :
    ∃ ctx : FinCtx, ∃ r1 r2 r3, ctx.symbol = symbol ∧
      folder_rows ctx (pyOrJ p (.obj [])) "cashflow" "CF" = .ok r1 ∧
      folder_rows ctx (pyOrJ p (.obj [])) "incomestatement" "IS" = .ok r2 ∧
      folder_rows ctx (pyOrJ p (.obj [])) "balancesheet" "BS" = .ok r3 ∧
      rows = r1 ++ r2 ++ r3 := by
  unfold normalize_financials at h
  obtain ⟨i0, hi0, h⟩ := exceptBind_ok h
  obtain ⟨sc, hsc, h⟩ := exceptBind_ok h
  obtain ⟨fc1, hfc1, h⟩ := exceptBind_ok h
  obtain ⟨fc2, hfc2, h⟩ := exceptBind_ok h
  obtain ⟨n1, hn1, h⟩ := exceptBind_ok h
  obtain ⟨n2, hn2, h⟩ := exceptBind_ok h
  obtain ⟨n3, hn3, h⟩ := exceptBind_ok h
  obtain ⟨r1, h1, h⟩ := exceptBind_ok h
  obtain ⟨r2, h2, h⟩ := exceptBind_ok h
  obtain ⟨r3, h3, h⟩ := exceptBind_ok h
  exact ⟨_, r1, r2, r3, rfl, h1, h2, h3,
    by simpa [pure, Except.pure] using h.symm⟩

/-- Shape of every emitted record: it carries the requested company id, a
calendar-valid statement date, and a period that is either the annual
sentinel 4 or the computed quarter. -/
theorem normalize_financials_mem {symbol : String} {p : JVal}
    {rows : List FinRow} (h : normalize_financials symbol p = .ok rows) :
    ∀ r ∈ rows, r.stock = symbol ∧
      validDate r.date.year r.date.month r.date.day = true ∧
      (r.period = 4 ∨ r.period = quarter_from_date r.date) := by
  obtain ⟨ctx, r1, r2, r3, hsym, h1, h2, h3, hres⟩ := normalize_financials_inv h
  subst hres
  subst hsym
  intro r hr
  rcases List.mem_append.mp hr with hr' | hr'
  · rcases List.mem_append.mp hr' with hr'' | hr''
    · obtain ⟨-, hs, hv, hp⟩ := (folder_rows_spec h1).1 r hr''
      exact ⟨hs, hv, hp⟩
    · obtain ⟨-, hs, hv, hp⟩ := (folder_rows_spec h2).1 r hr''
      exact ⟨hs, hv, hp⟩
  · obtain ⟨-, hs, hv, hp⟩ := (folder_rows_spec h3).1 r hr'
    exact ⟨hs, hv, hp⟩

/-! ### Claims C1, C2, C10 -/

/-- C1 (amended): for every statement entry processed by the statement
normalizer, the emitted period is 4 when the periodicity label is "yearly";
when the label is "quarterly" with statement month m, the period is
1 + (m-1)//3 and lies in 1..4 — period 4 is emitted for quarterly entries
exactly when the month is October through December. -/
theorem freq_rows_periods (ctx : FinCtx) (stype : String) (fbY fbQ : JVal)
    (rowsY rowsQ : List FinRow)
    (hy : freq_rows ctx stype "yearly" fbY = .ok rowsY)
    (hq : freq_rows ctx stype "quarterly" fbQ = .ok rowsQ) :
    (∀ r ∈ rowsY, r.period = 4) ∧
    (∀ r ∈ rowsQ, r.period = (r.date.month - 1) / 3 + 1 ∧
      1 ≤ r.period ∧ r.period ≤ 4 ∧ (r.period = 4 ↔ 10 ≤ r.date.month)) := by
  constructor
  · intro r hr
    have h := (freq_rows_mem hy r hr).2.2.2.1
    rw [h]
    rfl
  · intro r hr
    obtain ⟨-, -, -, hper, hval⟩ := freq_rows_mem hq r hr
    have hm := validDate_month hval
    have hqd : r.period = (r.date.month - 1) / 3 + 1 := by
      rw [hper]
      rfl
    refine ⟨hqd, ?_, ?_, ?_⟩ <;> omega

/-- A quarterly-only cashflow block dated in December, and the row it
produces. -/
def decQuarterPayload : JVal :=
  .obj [("cashflow", .obj [("quarterly",
    .obj [("2024-12-31 00:00:00", .obj [("TotalRevenue", .int 5)])])])]

/-- C1 counterexample: a quarterly entry dated 2024-12-31 is emitted with
period 4, refuting that quarterly periods always lie in 1..3 and that period
4 is never emitted for quarterly entries. -/
theorem freq_rows_periods_cex :
    (freq_rows ⟨"S", JVal.null, JVal.null, JVal.null⟩ "CF" "quarterly"
      (.obj [("2024-12-31 00:00:00", .obj [("TotalRevenue", .int 5)])])).map
      (fun rows => rows.map FinRow.period) = .ok [4] ∧
    (normalize_financials "S" decQuarterPayload).map
      (fun rows => rows.map (fun r => (r.period, r.date))) =
      .ok [(4, ⟨2024, 12, 31⟩)] :=
  ⟨rfl, rfl⟩

/-- Concrete yearly block for the C1 witness. -/
def c1YearBlock : JVal := .obj [("2023-12-31 00:00:00", .obj [("A", .int 1)])]

/-- Concrete quarterly block for the C1 witness. -/
def c1QuarterBlock : JVal := .obj [("2024-03-31 00:00:00", .obj [("A", .int 2)])]

/-- Row produced from `c1YearBlock`. -/
def c1YearRow : FinRow :=
  ⟨"S", .null, "CF", "A", .null, .null, 2023, 4, .int 1, ⟨2023, 12, 31⟩⟩

/-- Row produced from `c1QuarterBlock`. -/
def c1QuarterRow : FinRow :=
  ⟨"S", .null, "CF", "A", .null, .null, 2024, 1, .int 2, ⟨2024, 3, 31⟩⟩

/-- Witness for the amended C1 theorem at a concrete yearly block and a
concrete quarterly block. -/
theorem freq_rows_periods_witness :
    (freq_rows ⟨"S", JVal.null, JVal.null, JVal.null⟩ "CF" "yearly"
        c1YearBlock = .ok [c1YearRow] ∧
     freq_rows ⟨"S", JVal.null, JVal.null, JVal.null⟩ "CF" "quarterly"
        c1QuarterBlock = .ok [c1QuarterRow]) ∧
    ((∀ r ∈ [c1YearRow], r.period = 4) ∧
     (∀ r ∈ [c1QuarterRow],
        r.period = (r.date.month - 1) / 3 + 1 ∧
        1 ≤ r.period ∧ r.period ≤ 4 ∧ (r.period = 4 ↔ 10 ≤ r.date.month))) :=
  ⟨⟨rfl, rfl⟩,
   freq_rows_periods ⟨"S", JVal.null, JVal.null, JVal.null⟩ "CF"
     c1YearBlock c1QuarterBlock [c1YearRow] [c1QuarterRow] rfl rfl⟩

/-- C2 (amended): no two records emitted by normalize_financials share the
natural key (company_id, statement_type, metric_name, statement_date),
provided that within each statement section the date-string keys across the
yearly and quarterly blocks parse to pairwise-distinct dates, and the metric
dicts have pairwise-distinct keys (as Python dicts always do). -/
theorem normalize_financials_keys_unique (symbol : String) (p : JVal)
    (rows : List FinRow)
    (hok : normalize_financials symbol p = .ok rows)
    (hdates : ∀ folder ∈ ["cashflow", "incomestatement", "balancesheet"],
      (section_dates p folder).Nodup)
    (hmk : ∀ folder ∈ ["cashflow", "incomestatement", "balancesheet"],
      metrics_keys_ok p folder) :
    rows.Pairwise (fun a b => finKey a ≠ finKey b) := by
  obtain ⟨ctx, r1, r2, r3, hsym, h1, h2, h3, hres⟩ := normalize_financials_inv hok
  subst hres
  have p1 := (folder_rows_spec h1).2 (hdates _ (by simp)) (hmk _ (by simp))
  have p2 := (folder_rows_spec h2).2 (hdates _ (by simp)) (hmk _ (by simp))
  have p3 := (folder_rows_spec h3).2 (hdates _ (by simp)) (hmk _ (by simp))
  have t1 := (folder_rows_spec h1).1
  have t2 := (folder_rows_spec h2).1
  have t3 := (folder_rows_spec h3).1
  refine List.pairwise_append.mpr
    ⟨List.pairwise_append.mpr ⟨p1, p2, ?_⟩, p3, ?_⟩
  · intro a ha b hb hk
    have hst : a.statement_type = b.statement_type :=
      congrArg (fun t => t.2.1) hk
    rw [(t1 a ha).1, (t2 b hb).1] at hst
    exact absurd hst (by decide)
  · intro a ha b hb hk
    have hst : a.statement_type = b.statement_type :=
      congrArg (fun t => t.2.1) hk
    rcases List.mem_append.mp ha with h' | h'
    · rw [(t1 a h').1, (t3 b hb).1] at hst
      exact absurd hst (by decide)
    · rw [(t2 a h').1, (t3 b hb).1] at hst
      exact absurd hst (by decide)

/-- A payload whose cashflow section repeats the same date string under the
yearly and the quarterly block. -/
def dupKeyPayload : JVal :=
  .obj [("cashflow", .obj
    [("yearly", .obj [("2024-12-31 00:00:00", .obj [("FreeCashFlow", .int 1)])]),
     ("quarterly",
      .obj [("2024-12-31 00:00:00", .obj [("FreeCashFlow", .int 2)])])])]

/-- The two rows normalize_financials emits for `dupKeyPayload`. -/
def dupKeyRow1 : FinRow :=
  ⟨"S", .null, "CF", "FreeCashFlow", .null, .null, 2024, 4, .int 1,
    ⟨2024, 12, 31⟩⟩

/-- Second row for `dupKeyPayload`, sharing the natural key of the first. -/
def dupKeyRow2 : FinRow :=
  ⟨"S", .null, "CF", "FreeCashFlow", .null, .null, 2024, 4, .int 2,
    ⟨2024, 12, 31⟩⟩

/-- C2 counterexample: `dupKeyPayload` produces two records with identical
natural keys, refuting the claim as stated. -/
theorem normalize_financials_keys_cex :
    (normalize_financials "S" dupKeyPayload).map (fun rows => rows.map finKey)
      = .ok [("S", "CF", "FreeCashFlow", ⟨2024, 12, 31⟩),
             ("S", "CF", "FreeCashFlow", ⟨2024, 12, 31⟩)] ∧
    ¬ (∀ rows, normalize_financials "S" dupKeyPayload = .ok rows →
        rows.Pairwise (fun a b => finKey a ≠ finKey b)) := by
  constructor
  · rfl
  · intro hcl
    have h := hcl [dupKeyRow1, dupKeyRow2] rfl
    rw [List.pairwise_cons] at h
    exact h.1 dupKeyRow2 (List.mem_singleton.mpr rfl) rfl

/-- A payload whose cashflow blocks carry two distinct dates. -/
def c2WitnessPayload : JVal :=
  .obj [("cashflow", .obj
    [("yearly", .obj [("2023-12-31 00:00:00", .obj [("A", .int 1)])]),
     ("quarterly", .obj [("2024-03-31 00:00:00", .obj [("A", .int 2)])])])]

/-- Witness for the amended C2 theorem at `c2WitnessPayload`. -/
theorem normalize_financials_keys_unique_witness :
    (normalize_financials "S" c2WitnessPayload
      = .ok [c1YearRow, c1QuarterRow] ∧
     (∀ folder ∈ ["cashflow", "incomestatement", "balancesheet"],
       (section_dates c2WitnessPayload folder).Nodup) ∧
     (∀ folder ∈ ["cashflow", "incomestatement", "balancesheet"],
       metrics_keys_ok c2WitnessPayload folder)) ∧
    List.Pairwise (fun a b => finKey a ≠ finKey b) [c1YearRow, c1QuarterRow] :=
  ⟨⟨rfl, by decide, by decide⟩,
   normalize_financials_keys_unique "S" c2WitnessPayload
     [c1YearRow, c1QuarterRow] rfl (by decide) (by decide)⟩

/-- C10: quarter_from_date computes `(month - 1)//3 + 1`, which lies in 1..4
for every valid month, returns 4 for months 10-12, and consequently any
record emitted by normalize_financials dated October through December carries
period 4 — the same value as the annual sentinel. -/
theorem quarter_from_date_spec :
    (∀ d : PyDate, 1 ≤ d.month → d.month ≤ 12 →
      quarter_from_date d = (d.month - 1) / 3 + 1 ∧
      1 ≤ quarter_from_date d ∧ quarter_from_date d ≤ 4 ∧
      (10 ≤ d.month → quarter_from_date d = 4)) ∧
    (∀ (symbol : String) (p : JVal) (rows : List FinRow),
      normalize_financials symbol p = .ok rows →
      ∀ r ∈ rows, 10 ≤ r.date.month → r.period = 4) := by
  constructor
  · intro d h1 h2
    unfold quarter_from_date
    refine ⟨rfl, ?_, ?_, ?_⟩ <;> omega
  · intro symbol p rows h r hr hm
    obtain ⟨-, hval, hper⟩ := normalize_financials_mem h r hr
    have hb := validDate_month hval
    rcases hper with h4 | hq
    · exact h4
    · rw [hq]
      unfold quarter_from_date
      omega

/-- A payload with one quarterly balance-sheet entry dated in November. -/
def novQuarterPayload : JVal :=
  .obj [("balancesheet", .obj [("quarterly",
    .obj [("2024-11-30 00:00:00", .obj [("NetDebt", .int 7)])])])]

/-- The row normalize_financials emits for `novQuarterPayload`. -/
def novQuarterRow : FinRow :=
  ⟨"S", .null, "BS", "NetDebt", .null, .null, 2024, 4, .int 7, ⟨2024, 11, 30⟩⟩

/-- Witness for C10 at a concrete November date and at `novQuarterPayload`. -/
theorem quarter_from_date_spec_witness :
    (1 ≤ (11 : Nat) ∧ (11 : Nat) ≤ 12 ∧
      quarter_from_date ⟨2024, 11, 5⟩ = 4) ∧
    (normalize_financials "S" novQuarterPayload = .ok [novQuarterRow] ∧
     ∀ r ∈ [novQuarterRow], 10 ≤ r.date.month → r.period = 4) :=
  ⟨⟨by decide, by decide,
    (quarter_from_date_spec.1 ⟨2024, 11, 5⟩ (by decide) (by decide)).2.2.2
      (by decide)⟩,
   ⟨rfl, quarter_from_date_spec.2 "S" novQuarterPayload [novQuarterRow] rfl⟩⟩

/-! ### The profile normalizer (Summary.py) -/

/-- str.strip(): drop whitespace from both ends. -/
def pyStrip (l : List Char) : List Char :=
  List.rdropWhile pyIsSpace (l.dropWhile pyIsSpace)

/-- The `\s+` → one-space substitution of clean_text: every maximal run of
whitespace characters becomes a single space. -/
def collapseWs : List Char → List Char
  | [] => []
  | [c] => if pyIsSpace c then [' '] else [c]
  | c1 :: c2 :: rest =>
    if pyIsSpace c1 && pyIsSpace c2 then collapseWs (c2 :: rest)
    else (if pyIsSpace c1 then ' ' else c1) :: collapseWs (c2 :: rest)

/-- `s[:n] if len(s) > n else s`. -/
def pyTruncate (n : Nat) (l : List Char) : List Char :=
  if n < l.length then l.take n else l

/-- The string path of clean_text: strip, collapse whitespace, truncate to
200000 characters. -/
def clean_text_core (s : String) : String :=
  ⟨pyTruncate 200000 (collapseWs (pyStrip s.data))⟩

/-- clean_text from Summary.py: a falsy value maps to None; a truthy string
is stripped, whitespace-collapsed and truncated; a truthy non-string raises
AttributeError on .strip, modelled as an error. -/
def clean_text (v : JVal) : Except Unit (Option String) :=
  if jTruthy v then
    match v with
    | .str s => .ok (some (clean_text_core s))
    | _ => .error ()
  else .ok none

/-- The `\w` class of the enrichment regexes (ASCII model). -/
def isWordChar (c : Char) : Bool :=
  c.isAlphanum || c = '_'

/-- Case-insensitive literal match consuming the pattern from the front. -/
def stripMatchCI : List Char → List Char → Option (List Char)
  | [], l => some l
  | _ :: _, [] => none
  | p :: ps, c :: cs =>
    if p.toLower = c.toLower then stripMatchCI ps cs else none

/-- Match of `founded in (\d{4})\b` at the current position. -/
def foundedAt (l : List Char) : Option Nat :=
  match stripMatchCI "founded in ".data l with
  | none => none
  | some rest =>
    let ds := rest.take 4
    let rest2 := rest.drop 4
    if ds.length = 4 && ds.all Char.isDigit
        && rest2.head?.all (fun c => !isWordChar c) then
      some (digitsToNat ds)
    else none

/-- re.search of the founded-in pattern: leftmost position preceded by a word
boundary. -/
def scanFounded (prev : Option Char) : List Char → Option Nat
  | [] => none
  | c :: cs =>
    if prev.all (fun p => !isWordChar p) then
      match foundedAt (c :: cs) with
      | some y => some y
      | none => scanFounded (some c) cs
    else scanFounded (some c) cs

/-- Match of `formerly known as ([^.,;]+)` at the current position. -/
def formerAt (l : List Char) : Option (List Char) :=
  match stripMatchCI "formerly known as ".data l with
  | none => none
  | some rest =>
    let cap := rest.takeWhile (fun c => c ≠ '.' && c ≠ ',' && c ≠ ';')
    if cap.isEmpty then none else some cap

/-- re.search of the formerly-known-as pattern. -/
def scanFormer (prev : Option Char) : List Char → Option (List Char)
  | [] => none
  | c :: cs =>
    if prev.all (fun p => !isWordChar p) then
      match formerAt (c :: cs) with
      | some cap => some cap
      | none => scanFormer (some c) cs
    else scanFormer (some c) cs

/-- Match of `headquartered in ([^.]+?)(?:\.|$)` at the current position: the
lazy capture runs to the first period, or to the end when there is none. -/
def hqAt (l : List Char) : Option (List Char) :=
  match stripMatchCI "headquartered in ".data l with
  | none => none
  | some rest =>
    let cap := rest.takeWhile (fun c => c ≠ '.')
    if cap.isEmpty then none else some cap

/-- re.search of the headquartered-in pattern. -/
def scanHq (prev : Option Char) : List Char → Option (List Char)
  | [] => none
  | c :: cs =>
    if prev.all (fun p => !isWordChar p) then
      match hqAt (c :: cs) with
      | some cap => some cap
      | none => scanHq (some c) cs
    else scanHq (some c) cs

/-- The five optional fields extract_from_summary derives. -/
structure ExtractResult where
  founded : Option Int
  former : Option String
  city : Option String
  state : Option String
  country : Option String

/-- extract_from_summary from Summary.py: best-effort regex enrichers over
the cleaned summary paragraph; the former-name capture is nonempty so its
clean_text call reduces to the string path. -/
def extract_from_summary (summary : Option String) : ExtractResult :=
  match summary with
  | none => ⟨none, none, none, none, none⟩
  | some s =>
    if s = "" then ⟨none, none, none, none, none⟩
    else
      let cs := s.data
      let founded := (scanFounded none cs).map Int.ofNat
      let former := (scanFormer none cs).map (fun cap => clean_text_core ⟨cap⟩)
      match scanHq none cs with
      | none => ⟨founded, former, none, none, none⟩
      | some cap =>
        match (List.splitOn ',' (pyStrip cap)).map pyStrip with
        | [] => ⟨founded, former, none, none, none⟩
        | [p1] => ⟨founded, former, some ⟨p1⟩, none, none⟩
        | [p1, p2] => ⟨founded, former, some ⟨p1⟩, some ⟨p2⟩, none⟩
        | p1 :: p2 :: rest =>
          ⟨founded, former, some ⟨p1⟩, some ⟨p2⟩,
           some ⟨List.intercalate ", ".data rest⟩⟩

/-- The employees coercion of normalize_summary: strings keep their digits
(an empty digit set raises in int() and maps to None); booleans are ints in
Python; finite floats truncate toward zero; NaN/Infinity and every other
type map to None. -/
def employees_of (v : JVal) : Option Int :=
  match v with
  | .str s =>
    let ds := s.data.filter Char.isDigit
    if ds.isEmpty then none else some (Int.ofNat (digitsToNat ds))
  | .bool b => some (if b then 1 else 0)
  | .int n => some n
  | .float f =>
    match f with
    | .finite q => some (if 0 ≤ q then ⌊q⌋ else -⌊-q⌋)
    | _ => none
  | _ => none

/-- Python `a or b` on optional strings (the empty string is falsy). -/
def pyOrOptStr (a b : Option String) : Option String :=
  match a with
  | some s => if s = "" then b else some s
  | none => b

/-- Short-circuiting Python `or` over two computations of decoded values. -/
def pyOrElse (a b : Except Unit JVal) : Except Unit JVal := do
  let va ← a
  if jTruthy va then pure va else b

/-- One row of the summary table, as built by normalize_summary. -/
structure SummaryRec where
  stock : JVal
  yf_name : Option String
  long_summary : Option String
  sector : Option String
  industry : Option String
  website : Option String
  employees : Option Int
  city : Option String
  state : Option String
  country : Option String
  currency : Option String
  founded_year : Option Int
  former_name : Option String
  updated_at : String

/-- `stock = symbol_hint or info.get("symbol") or info.get("ticker")`,
with Python's short-circuiting. -/
def resolve_stock (symbol_hint info : JVal) : Except Unit JVal :=
  if jTruthy symbol_hint then pure symbol_hint
  else pyOrElse (jGetD info "symbol" .null) (jGetD info "ticker" .null)

/-- normalize_summary from Summary.py, with the utcnow timestamp passed in
explicitly as `now` (the code formats datetime.utcnow() at the moment of
normalization, so `now` changes on every run). -/
def normalize_summary (symbol_hint : JVal) (root_obj : JVal) (now : String) :
    Except Unit SummaryRec := do
  let obj := pyOrJ root_obj (.obj [])
  let i0 ← jGetD obj "info" .null
  let info := pyOrJ i0 obj
  let stock ← resolve_stock symbol_hint info
  let yf_name ← pyOrElse (pyOrElse (pyOrElse (jGetD info "longName" .null)
    (jGetD info "shortName" .null)) (jGetD info "displayName" .null))
    (jGetD info "name" .null)
  let long_summary ← pyOrElse (pyOrElse
    (jGetD info "longBusinessSummary" .null) (jGetD obj "summary" .null))
    (do
      let prof ← jGetD obj "profile" .null
      jGetD (pyOrJ prof (.obj [])) "longBusinessSummary" .null)
  let sector ← pyOrElse (jGetD info "sector" .null)
    (jGetD info "sectorDisp" .null)
  let industry ← pyOrElse (jGetD info "industry" .null)
    (jGetD info "industryDisp" .null)
  let website ← pyOrElse (jGetD info "website" .null)
    (jGetD info "irWebsite" .null)
  let employeesRaw ← jGetD info "fullTimeEmployees" .null
  let cityRaw ← jGetD info "city" .null
  let stateRaw ← pyOrElse (jGetD info "state" .null)
    (jGetD info "province" .null)
  let countryRaw ← jGetD info "country" .null
  let currencyRaw ← pyOrElse (jGetD info "currency" .null)
    (jGetD info "financialCurrency" .null)
  let yf_name2 ← clean_text yf_name
  let long_summary2 ← clean_text long_summary
  let sector2 ← clean_text sector
  let industry2 ← clean_text industry
  let website2 ← clean_text website
  let city2 ← clean_text cityRaw
  let state2 ← clean_text stateRaw
  let country2 ← clean_text countryRaw
  let currency2 ← clean_text currencyRaw
  let employees := employees_of employeesRaw
  let ex := extract_from_summary long_summary2
  pure ⟨stock, yf_name2, long_summary2, sector2, industry2, website2,
    employees, pyOrOptStr city2 ex.city, pyOrOptStr state2 ex.state,
    pyOrOptStr country2 ex.country, currency2, ex.founded, ex.former, now⟩

/-! ### Payload parsing and the per-row driver -/

/-- UTF-8 decoding with U+FFFD replacement, modelling
bytes.decode("utf-8", errors="replace") (replacement granularity for
truncated sequences is approximate; no theorem depends on it). -/
def decodeUtf8Replace : List Nat → List Char
  | [] => []
  | b :: rest =>
    if b < 0x80 then Char.ofNat b :: decodeUtf8Replace rest
    else if 0xc2 ≤ b && b ≤ 0xdf then
      match rest with
      | b2 :: r2 =>
        if 0x80 ≤ b2 && b2 ≤ 0xbf then
          Char.ofNat ((b - 0xc0) * 64 + (b2 - 0x80)) :: decodeUtf8Replace r2
        else Char.ofNat 0xfffd :: decodeUtf8Replace (b2 :: r2)
      | [] => [Char.ofNat 0xfffd]
    else if 0xe0 ≤ b && b ≤ 0xef then
      match rest with
      | b2 :: b3 :: r3 =>
        if (if b = 0xe0 then 0xa0 ≤ b2 && b2 ≤ 0xbf
            else if b = 0xed then 0x80 ≤ b2 && b2 ≤ 0x9f
            else 0x80 ≤ b2 && b2 ≤ 0xbf)
            && 0x80 ≤ b3 && b3 ≤ 0xbf then
          Char.ofNat ((b - 0xe0) * 4096 + (b2 - 0x80) * 64 + (b3 - 0x80))
            :: decodeUtf8Replace r3
        else Char.ofNat 0xfffd :: decodeUtf8Replace (b2 :: b3 :: r3)
      | other => Char.ofNat 0xfffd :: decodeUtf8Replace other
    else if 0xf0 ≤ b && b ≤ 0xf4 then
      match rest with
      | b2 :: b3 :: b4 :: r4 =>
        if (if b = 0xf0 then 0x90 ≤ b2 && b2 ≤ 0xbf
            else if b = 0xf4 then 0x80 ≤ b2 && b2 ≤ 0x8f
            else 0x80 ≤ b2 && b2 ≤ 0xbf)
            && 0x80 ≤ b3 && b3 ≤ 0xbf && 0x80 ≤ b4 && b4 ≤ 0xbf then
          Char.ofNat ((b - 0xf0) * 262144 + (b2 - 0x80) * 4096
              + (b3 - 0x80) * 64 + (b4 - 0x80))
            :: decodeUtf8Replace r4
        else Char.ofNat 0xfffd :: decodeUtf8Replace (b2 :: b3 :: b4 :: r4)
      | other => Char.ofNat 0xfffd :: decodeUtf8Replace other
    else Char.ofNat 0xfffd :: decodeUtf8Replace rest
termination_by l => l.length
decreasing_by all_goals (simp only [List.length_cons]; omega)

/-- A value fetched from the payload column: raw bytes, or an
already-decoded value (a str, a dict, or anything else the driver returns). -/
inductive DBVal where
  | bytes (bs : List Nat)
  | val (v : JVal)

/-- s.strip('"'): remove leading and trailing double-quote characters. -/
def stripQuotes (s : String) : String :=
  ⟨((s.data.dropWhile (fun c => c = '"')).reverse.dropWhile
      (fun c => c = '"')).reverse⟩

/-- The decoded-string view of a stored value: bytes are UTF-8 decoded with
replacement, strings pass through, anything else is not a string. -/
def dbDecodedStr : DBVal → Option String
  | .bytes bs => some ⟨decodeUtf8Replace bs⟩
  | .val (.str s) => some s
  | .val _ => none

/-- The two json.loads attempts of the string branch: the raw string first,
then the quote-stripped unicode-unescaped retry, the empty dict on double
failure. -/
def loads_or_empty (loads : String → Option JVal) (unesc : String → String)
    (s : String) : JVal :=
  match loads s with
  | some v => v
  | none =>
    match loads (unesc (stripQuotes s)) with
    | some v => v
    | none => .obj []

/-- The final non-dict coercion of parse_json_value: a dict passes through,
a string gets one more json.loads attempt (loads raises on every other type,
yielding the empty dict through the except branch). -/
def finalize_obj (loads : String → Option JVal) (obj : JVal) : JVal :=
  match obj with
  | .obj es => .obj es
  | .str s2 =>
    (match loads s2 with
     | some v => v
     | none => .obj [])
  | _ => .obj []

/-- parse_json_value from Financilas.py / Summary.py.  `loads` models
json.loads on a string (`none` = raises); `unesc` models the
encode-utf8/decode-unicode-escape round trip.  The inner bytes case is
unreachable since a bytes value always yields a decoded string. -/
def parse_json_value (loads : String → Option JVal) (unesc : String → String)
    (j : DBVal) : JVal :=
  finalize_obj loads
    (match dbDecodedStr j with
     | some s => loads_or_empty loads unesc s
     | none =>
       match j with
       | .val v => v
       | .bytes _ => .obj [])

/-- Outcome of one row of the Summary.py main loop. -/
inductive RowOutcome where
  | skipped
  | upserted (rec : SummaryRec)
  | errored

/-- The per-row body of Summary.py main: parse the payload, normalize, skip
the row when the resulting stock is falsy, and turn any exception into a
counted error rather than a crash of the run. -/
def process_summary_row (loads : String → Option JVal)
    (unesc : String → String) (symbol_hint : JVal) (j : DBVal)
    (now : String) : RowOutcome :=
  match normalize_summary symbol_hint (parse_json_value loads unesc j) now with
  | .error _ => .errored
  | .ok rec => if jTruthy rec.stock then .upserted rec else .skipped

/-! ### Claim C6: the text-cleaning step -/

theorem dropWhile_head_false (p : Char → Bool) :
    ∀ (l : List Char) (c : Char), (l.dropWhile p).head? = some c →
      p c = false
  | [], c => by
    intro h
    simp at h
  | a :: l, c => by
    intro h
    rw [List.dropWhile_cons] at h
    split at h
    · exact dropWhile_head_false p l c h
    · rename_i hpa
      simp at h
      subst h
      cases hpc : p a
      · rfl
      · exact absurd hpc hpa

theorem collapseWs_ne_nil : ∀ {l : List Char}, l ≠ [] → collapseWs l ≠ []
  | [], h => absurd rfl h
  | [_], _ => by
    unfold collapseWs
    split <;> simp
  | _ :: c2 :: rest, _ => by
    unfold collapseWs
    split
    · exact collapseWs_ne_nil (by simp)
    · simp

theorem collapseWs_space : ∀ (l : List Char), ∀ c ∈ collapseWs l,
    pyIsSpace c = true → c = ' '
  | [] => by simp [collapseWs]
  | [c0] => by
    intro c hc hsp
    unfold collapseWs at hc
    split at hc
    · simpa using hc
    · rename_i hns
      simp at hc
      subst hc
      exact absurd hsp (by simpa using hns)
  | c1 :: c2 :: rest => by
    intro c hc hsp
    unfold collapseWs at hc
    split at hc
    · exact collapseWs_space (c2 :: rest) c hc hsp
    · rcases List.mem_cons.mp hc with h | h
      · by_cases h1 : pyIsSpace c1 = true
        · simp [h, h1]
        · rw [h, if_neg h1] at hsp
          exact absurd hsp h1
      · exact collapseWs_space (c2 :: rest) c h hsp

theorem collapseWs_head_not_space : ∀ (c2 : Char) (rest : List Char) (c : Char),
    pyIsSpace c2 = false → (collapseWs (c2 :: rest)).head? = some c →
    pyIsSpace c = false
  | c2, [], c => by
    intro h2 hc
    unfold collapseWs at hc
    rw [if_neg (by simp [h2])] at hc
    simp at hc
    subst hc
    exact h2
  | c2, c3 :: rest, c => by
    intro h2 hc
    unfold collapseWs at hc
    rw [if_neg (by simp [h2]), if_neg (by simp [h2])] at hc
    simp at hc
    subst hc
    exact h2

theorem collapseWs_head (l : List Char) (c : Char)
    (hl : ∀ c0, l.head? = some c0 → pyIsSpace c0 = false)
    (hc : (collapseWs l).head? = some c) : pyIsSpace c = false := by
  cases l with
  | nil => simp [collapseWs] at hc
  | cons c0 rest => exact collapseWs_head_not_space c0 rest c (hl c0 rfl) hc

theorem collapseWs_chain : ∀ (l : List Char),
    (collapseWs l).Chain' (fun a b => ¬(pyIsSpace a = true ∧ pyIsSpace b = true))
  | [] => by simp [collapseWs]
  | [_] => by
    unfold collapseWs
    split <;> simp
  | c1 :: c2 :: rest => by
    have ih := collapseWs_chain (c2 :: rest)
    unfold collapseWs
    split
    · exact ih
    · rename_i hcond
      refine List.chain'_cons'.mpr ⟨?_, ih⟩
      intro y hy
      rw [Option.mem_def] at hy
      by_cases h1 : pyIsSpace c1 = true
      · have h2 : pyIsSpace c2 = false := by
          cases hsp2 : pyIsSpace c2
          · rfl
          · exact absurd (by simp [h1, hsp2]) hcond
        have hy' := collapseWs_head_not_space c2 rest y h2 hy
        simp [hy']
      · simp [h1]

theorem collapseWs_length : ∀ (l : List Char),
    (collapseWs l).length ≤ l.length
  | [] => by simp [collapseWs]
  | [_] => by
    unfold collapseWs
    split <;> simp
  | _ :: c2 :: rest => by
    have ih := collapseWs_length (c2 :: rest)
    unfold collapseWs
    split
    · exact le_trans ih (by simp)
    · simpa using Nat.succ_le_succ ih

theorem collapseWs_last : ∀ (l : List Char) (c : Char),
    (∀ c0, l.getLast? = some c0 → pyIsSpace c0 = false) →
    (collapseWs l).getLast? = some c → pyIsSpace c = false
  | [], c => by
    intro _ hc
    simp [collapseWs] at hc
  | [c0], c => by
    intro hl hc
    unfold collapseWs at hc
    by_cases h0 : pyIsSpace c0 = true
    · exact absurd (hl c0 (by simp)) (by simp [h0])
    · rw [if_neg h0] at hc
      simp at hc
      subst hc
      simpa using h0
  | c1 :: c2 :: rest, c => by
    intro hl hc
    have htl : ∀ c0, (c2 :: rest).getLast? = some c0 → pyIsSpace c0 = false := by
      intro c0 h0
      apply hl
      rw [List.getLast?_cons_cons]
      exact h0
    unfold collapseWs at hc
    split at hc
    · exact collapseWs_last (c2 :: rest) c htl hc
    · cases hL : collapseWs (c2 :: rest) with
      | nil => exact absurd hL (collapseWs_ne_nil (by simp))
      | cons x xs =>
        rw [hL, List.getLast?_cons_cons] at hc
        apply collapseWs_last (c2 :: rest) c htl
        rw [hL]
        exact hc

theorem pyStrip_head (l : List Char) (c : Char)
    (h : (pyStrip l).head? = some c) : pyIsSpace c = false := by
  unfold pyStrip at h
  obtain ⟨t, ht⟩ := List.rdropWhile_prefix pyIsSpace (l.dropWhile pyIsSpace)
  cases hout : List.rdropWhile pyIsSpace (l.dropWhile pyIsSpace) with
  | nil =>
    rw [hout] at h
    cases h
  | cons c0 rest =>
    rw [hout] at h
    simp at h
    subst h
    rw [hout] at ht
    have hh : (l.dropWhile pyIsSpace).head? = some c0 := by
      rw [← ht]
      rfl
    exact dropWhile_head_false pyIsSpace l c0 hh

theorem pyStrip_last (l : List Char) (c : Char)
    (h : (pyStrip l).getLast? = some c) : pyIsSpace c = false := by
  unfold pyStrip at h
  have hne : List.rdropWhile pyIsSpace (l.dropWhile pyIsSpace) ≠ [] := by
    intro hnil
    rw [hnil] at h
    cases h
  have hlast := List.rdropWhile_last_not pyIsSpace (l.dropWhile pyIsSpace) hne
  rw [List.getLast?_eq_getLast _ hne] at h
  simp at h
  subst h
  simpa using hlast

theorem pyStrip_length (l : List Char) : (pyStrip l).length ≤ l.length := by
  unfold pyStrip
  have h1 := (List.rdropWhile_prefix pyIsSpace (l.dropWhile pyIsSpace)).sublist.length_le
  have h2 := (List.dropWhile_sublist (l := l) pyIsSpace).length_le
  omega

theorem pyTruncate_length (n : Nat) (l : List Char) :
    (pyTruncate n l).length ≤ max n l.length := by
  unfold pyTruncate
  split <;> simp [List.length_take] <;> omega

theorem pyTruncate_head (n : Nat) (l : List Char) (c : Char)
    (h : (pyTruncate n l).head? = some c) : l.head? = some c := by
  unfold pyTruncate at h
  split at h
  · cases l with
    | nil => simp at h
    | cons a t =>
      cases n with
      | zero => simp at h
      | succ m =>
        rw [List.take_succ_cons] at h
        simpa using h
  · exact h

/-- C6 (amended): on a string input, clean_text returns None exactly when the
input is empty; otherwise it returns the stripped, whitespace-collapsed text
truncated to 200000 characters: every whitespace character of the output is a
plain space, no two adjacent output characters are both whitespace, the
output never starts with whitespace, it never ends with whitespace when the
input is short enough not to be truncated, and its length is at most 200000.
A whitespace-only input cleans to the empty string, which is returned as ""
rather than as None. -/
theorem clean_text_spec (s : String) :
    (clean_text (.str s) = .ok none ↔ s = "") ∧
    (∀ t, clean_text (.str s) = .ok (some t) →
      t.data.length ≤ 200000 ∧
      (∀ c ∈ t.data, pyIsSpace c = true → c = ' ') ∧
      t.data.Chain' (fun a b => ¬(pyIsSpace a = true ∧ pyIsSpace b = true)) ∧
      (∀ c, t.data.head? = some c → pyIsSpace c = false) ∧
      (s.data.length ≤ 200000 →
        ∀ c, t.data.getLast? = some c → pyIsSpace c = false)) := by
  have hcore : ∀ t, t = clean_text_core s →
      t.data = pyTruncate 200000 (collapseWs (pyStrip s.data)) := by
    intro t ht
    rw [ht]
    rfl
  constructor
  · constructor
    · intro h
      unfold clean_text at h
      split at h
      · split at h <;> cases h
      · rename_i hft
        simp [jTruthy] at hft
        exact hft
    · intro h
      subst h
      rfl
  · intro t ht
    have hs : ¬(s = "") := by
      intro hcontra
      subst hcontra
      cases ht
    unfold clean_text at ht
    rw [if_pos (by simpa [jTruthy] using hs)] at ht
    have htt : t = clean_text_core s := by
      cases ht
      rfl
    have hdata := hcore t htt
    refine ⟨?_, ?_, ?_, ?_, ?_⟩
    · rw [hdata]
      have := pyTruncate_length 200000 (collapseWs (pyStrip s.data))
      have h1 := collapseWs_length (pyStrip s.data)
      have h2 := pyStrip_length s.data
      unfold pyTruncate
      split <;> simp [List.length_take] <;> omega
    · intro c hc hsp
      rw [hdata] at hc
      unfold pyTruncate at hc
      have hc' : c ∈ collapseWs (pyStrip s.data) := by
        split at hc
        · exact List.mem_of_mem_take hc
        · exact hc
      exact collapseWs_space (pyStrip s.data) c hc' hsp
    · rw [hdata]
      have hch := collapseWs_chain (pyStrip s.data)
      unfold pyTruncate
      split
      · exact List.Chain'.prefix hch (List.take_prefix _ _)
      · exact hch
    · intro c hc
      rw [hdata] at hc
      have hc' := pyTruncate_head 200000 (collapseWs (pyStrip s.data)) c hc
      exact collapseWs_head (pyStrip s.data) c
        (fun c0 h0 => pyStrip_head s.data c0 h0) hc'
    · intro hlen c hc
      rw [hdata] at hc
      have hlen2 : (collapseWs (pyStrip s.data)).length ≤ 200000 :=
        le_trans (collapseWs_length _) (le_trans (pyStrip_length _) hlen)
      unfold pyTruncate at hc
      rw [if_neg (by omega)] at hc
      exact collapseWs_last (pyStrip s.data) c
        (fun c0 h0 => pyStrip_last s.data c0 h0) hc

/-- C6 counterexample: a whitespace-only input cleans to the empty string,
but clean_text returns the empty string rather than None, refuting "returns
null whenever the cleaned result is empty". -/
theorem clean_text_cex :
    clean_text (.str " ") = .ok (some "") ∧
    (Except.ok (some "") : Except Unit (Option String)) ≠ .ok none :=
  ⟨rfl, by simp⟩

/-- Witness for the amended C6 theorem at a concrete input with internal
whitespace runs and padding. -/
theorem clean_text_spec_witness :
    (clean_text (.str " a  b ") = .ok (some "a b") ∧
     " a  b ".data.length ≤ 200000) ∧
    ((clean_text (.str " a  b ") = .ok none ↔ " a  b " = "") ∧
     ∀ c, "a b".data.getLast? = some c → pyIsSpace c = false) :=
  ⟨⟨rfl, by decide⟩,
   ⟨(clean_text_spec " a  b ").1,
    ((clean_text_spec " a  b ").2 "a b" rfl).2.2.2.2 (by decide)⟩⟩

/-! ### Claims C3, C7, C9 -/

theorem mapBind_congr {α β γ : Type} {e : Except Unit α}
    {f g : α → Except Unit β} {m : β → γ}
    (h : ∀ a, (f a).map m = (g a).map m) :
    (e >>= f).map m = (e >>= g).map m := by
  cases e with
  | error u => rfl
  | ok a => exact h a

/-- The record with its updated_at field cleared, for comparing two runs. -/
def eraseTime (rec : SummaryRec) : SummaryRec :=
  { rec with updated_at := "" }

/-- C3 (amended): the statement normalizer is a pure function of its symbol
and payload, so two runs yield the identical sequence; the profile normalizer
run twice at different times yields records identical on every field except
updated_at, which always equals the time of the run (the code stamps
datetime.utcnow() into every record). -/
theorem normalizers_repeatable (symbol : String) (p : JVal)
    (hint root : JVal) (t1 t2 : String) :
    normalize_financials symbol p = normalize_financials symbol p ∧
    (normalize_summary hint root t1).map eraseTime
      = (normalize_summary hint root t2).map eraseTime ∧
    (∀ rec, normalize_summary hint root t1 = .ok rec →
      rec.updated_at = t1) := by
  refine ⟨rfl, ?_, ?_⟩
  · unfold normalize_summary
    iterate 21 (refine mapBind_congr fun _ => ?_)
    rfl
  · intro rec h
    unfold normalize_summary at h
    iterate 21 (obtain ⟨_, -, h⟩ := exceptBind_ok h)
    cases h
    rfl

/-- C3 counterexample: two runs of the profile normalizer on the same hint
and payload at different times produce different records, because updated_at
carries the time of normalization. -/
theorem normalize_summary_two_runs_cex :
    normalize_summary .null (.obj []) "2024-01-01 00:00:00"
      ≠ normalize_summary .null (.obj []) "2024-01-01 00:00:01" := by
  intro h
  have h2 : (Except.ok "2024-01-01 00:00:00" : Except Unit String)
      = .ok "2024-01-01 00:00:01" :=
    congrArg (Except.map (fun rec : SummaryRec => rec.updated_at)) h
  simp at h2

/-- Witness for the amended C3 theorem at a concrete hint, payload and time. -/
theorem normalizers_repeatable_witness :
    normalize_summary .null (.obj []) "2024-05-05 12:00:00" = .ok
      ⟨.null, none, none, none, none, none, none, none, none, none, none,
       none, none, "2024-05-05 12:00:00"⟩ ∧
    (⟨.null, none, none, none, none, none, none, none, none, none, none,
       none, none, "2024-05-05 12:00:00"⟩ : SummaryRec).updated_at
      = "2024-05-05 12:00:00" :=
  ⟨rfl,
   (normalizers_repeatable "S" .null .null (.obj []) "2024-05-05 12:00:00"
     "x").2.2 _ rfl⟩

/-- The info mapping normalize_summary resolves: obj.get("info") or obj,
where obj is the payload defaulted to the empty dict. -/
def info_of (root_obj : JVal) : JVal :=
  pyOrJ (jLookTotal (pyOrJ root_obj (.obj [])) "info") (pyOrJ root_obj (.obj []))

/-- C7 (amended): when no usable company id can be determined (falsy symbol
hint, falsy or absent info.symbol and info.ticker), normalize_summary does
not raise — no MissingIdentifierError exists in the code; it returns a
record whose stock field is falsy, and the main loop then skips the upsert
for that company (it never reaches the upsert) rather than crashing. -/
theorem missing_identifier_skip (loads : String → Option JVal)
    (unesc : String → String) (hint : JVal) (j : DBVal) (now : String)
    (hhint : jTruthy hint = false)
    (hsym : jTruthy (jLookTotal (info_of (parse_json_value loads unesc j))
      "symbol") = false)
    (htick : jTruthy (jLookTotal (info_of (parse_json_value loads unesc j))
      "ticker") = false) :
    (∀ rec, normalize_summary hint (parse_json_value loads unesc j) now
      = .ok rec → jTruthy rec.stock = false) ∧
    (∀ rec, process_summary_row loads unesc hint j now ≠ .upserted rec) := by
  have hmain : ∀ rec, normalize_summary hint (parse_json_value loads unesc j)
      now = .ok rec → jTruthy rec.stock = false := by
    intro rec h
    unfold normalize_summary at h
    obtain ⟨i0, hi0, h⟩ := exceptBind_ok h
    have hinfo : pyOrJ i0 (pyOrJ (parse_json_value loads unesc j) (.obj []))
        = info_of (parse_json_value loads unesc j) := by
      rw [jGetD_ok hi0]
      rfl
    obtain ⟨stockv, hstock, h⟩ := exceptBind_ok h
    unfold resolve_stock at hstock
    rw [if_neg (by simp [hhint])] at hstock
    unfold pyOrElse at hstock
    obtain ⟨sv, hsv, hstock⟩ := exceptBind_ok hstock
    rw [hinfo] at hsv
    have hsveq := jGetD_ok hsv
    have hsvf : jTruthy sv = false := by
      rw [hsveq]
      exact hsym
    rw [if_neg (by simp [hsvf])] at hstock
    rw [hinfo] at hstock
    have hstockeq := jGetD_ok hstock
    have hstockf : jTruthy stockv = false := by
      rw [hstockeq]
      exact htick
    iterate 19 (obtain ⟨_, -, h⟩ := exceptBind_ok h)
    cases h
    exact hstockf
  refine ⟨hmain, ?_⟩
  intro rec
  unfold process_summary_row
  cases hn : normalize_summary hint (parse_json_value loads unesc j) now with
  | error e => simp
  | ok r =>
    have hr := hmain r hn
    simp [hr]

/-- C7 counterexample: on an empty payload with an empty hint,
normalize_summary returns normally (Except.ok) with a null stock rather than
failing with any MissingIdentifierError, and the caller's stock check skips
the row. -/
theorem missing_identifier_cex :
    normalize_summary .null (.obj []) "2024-01-01 00:00:00" = .ok
      ⟨.null, none, none, none, none, none, none, none, none, none, none,
       none, none, "2024-01-01 00:00:00"⟩ ∧
    process_summary_row (fun _ => none) id .null (.val (.obj []))
      "2024-01-01 00:00:00" = .skipped :=
  ⟨rfl, rfl⟩

/-- Witness for the amended C7 theorem at a concrete empty payload. -/
theorem missing_identifier_skip_witness :
    (jTruthy (.null : JVal) = false ∧
     jTruthy (jLookTotal (info_of (parse_json_value (fun _ => none) id
       (.val (.obj [])))) "symbol") = false ∧
     jTruthy (jLookTotal (info_of (parse_json_value (fun _ => none) id
       (.val (.obj [])))) "ticker") = false) ∧
    (∀ rec, process_summary_row (fun _ => none) id .null (.val (.obj []))
      "2024-01-01 00:00:00" ≠ .upserted rec) :=
  ⟨⟨rfl, rfl, rfl⟩,
   (missing_identifier_skip (fun _ => none) id .null (.val (.obj []))
     "2024-01-01 00:00:00" rfl rfl rfl).2⟩

/-- C9: a structured info.city (and likewise state and country) that is
present and non-empty after cleaning is exactly the value in the returned
profile record — the text-derived headquarters extraction never overwrites
it. -/
theorem structured_location_kept (hint root now : _) (rec : SummaryRec)
    (h : normalize_summary hint root now = .ok rec) :
    (∀ t, clean_text (jLookTotal (info_of root) "city") = .ok (some t) →
       t ≠ "" → rec.city = some t) ∧
    (∀ t, clean_text (pyOrJ (jLookTotal (info_of root) "state")
        (jLookTotal (info_of root) "province")) = .ok (some t) →
       t ≠ "" → rec.state = some t) ∧
    (∀ t, clean_text (jLookTotal (info_of root) "country") = .ok (some t) →
       t ≠ "" → rec.country = some t) := by
  unfold normalize_summary at h
  obtain ⟨i0, hi0, h⟩ := exceptBind_ok h
  have hinfo : pyOrJ i0 (pyOrJ root (.obj [])) = info_of root := by
    rw [jGetD_ok hi0]
    rfl
  obtain ⟨stockv, -, h⟩ := exceptBind_ok h
  obtain ⟨yfv, -, h⟩ := exceptBind_ok h
  obtain ⟨lsv, -, h⟩ := exceptBind_ok h
  obtain ⟨secv, -, h⟩ := exceptBind_ok h
  obtain ⟨indv, -, h⟩ := exceptBind_ok h
  obtain ⟨webv, -, h⟩ := exceptBind_ok h
  obtain ⟨empv, -, h⟩ := exceptBind_ok h
  obtain ⟨cityv, hcity, h⟩ := exceptBind_ok h
  obtain ⟨statev, hstate, h⟩ := exceptBind_ok h
  obtain ⟨ctryv, hctry, h⟩ := exceptBind_ok h
  obtain ⟨curv, -, h⟩ := exceptBind_ok h
  obtain ⟨yf2, -, h⟩ := exceptBind_ok h
  obtain ⟨ls2, -, h⟩ := exceptBind_ok h
  obtain ⟨sec2, -, h⟩ := exceptBind_ok h
  obtain ⟨ind2, -, h⟩ := exceptBind_ok h
  obtain ⟨web2, -, h⟩ := exceptBind_ok h
  obtain ⟨city2, hc2, h⟩ := exceptBind_ok h
  obtain ⟨st2, hs2, h⟩ := exceptBind_ok h
  obtain ⟨ct2, hct2, h⟩ := exceptBind_ok h
  obtain ⟨cur2, -, h⟩ := exceptBind_ok h
  rw [hinfo] at hcity hctry
  have hcityeq := jGetD_ok hcity
  have hctryeq := jGetD_ok hctry
  have hstateeq : statev = pyOrJ (jLookTotal (info_of root) "state")
      (jLookTotal (info_of root) "province") := by
    unfold pyOrElse at hstate
    obtain ⟨a, ha, hstate⟩ := exceptBind_ok hstate
    rw [hinfo] at ha
    have haeq : a = jLookTotal (info_of root) "state" := jGetD_ok ha
    by_cases hta : jTruthy a = true
    · rw [if_pos (by simp [hta])] at hstate
      cases hstate
      rw [haeq] at hta
      unfold pyOrJ
      rw [if_pos hta]
      exact haeq
    · rw [if_neg (by simp [hta])] at hstate
      rw [hinfo] at hstate
      have hbeq : statev = jLookTotal (info_of root) "province" :=
        jGetD_ok hstate
      rw [haeq] at hta
      unfold pyOrJ
      rw [if_neg hta]
      exact hbeq
  cases h
  refine ⟨?_, ?_, ?_⟩
  · intro t hct hne
    have hcv : clean_text cityv = .ok (some t) := by
      rw [hcityeq]
      exact hct
    rw [hcv] at hc2
    have : some t = city2 := Except.ok.inj hc2
    subst this
    simp [pyOrOptStr, hne]
  · intro t hct hne
    have hsv : clean_text statev = .ok (some t) := by
      rw [hstateeq]
      exact hct
    rw [hsv] at hs2
    have : some t = st2 := Except.ok.inj hs2
    subst this
    simp [pyOrOptStr, hne]
  · intro t hct hne
    have hcv : clean_text ctryv = .ok (some t) := by
      rw [hctryeq]
      exact hct
    rw [hcv] at hct2
    have : some t = ct2 := Except.ok.inj hct2
    subst this
    simp [pyOrOptStr, hne]

/-- A payload with structured city/state/country and a summary naming a
different headquarters location. -/
def c9Payload : JVal :=
  .obj [("info", .obj
    [("city", .str "Austin"), ("state", .str "Texas"),
     ("country", .str "United States"),
     ("longBusinessSummary", .str "It is headquartered in Berlin, Germany.")])]

/-- The record normalize_summary produces for `c9Payload`: the structured
location wins over the text-derived Berlin/Germany. -/
def c9Rec : SummaryRec :=
  ⟨.str "ACME", none, some "It is headquartered in Berlin, Germany.", none,
   none, none, none, some "Austin", some "Texas", some "United States", none,
   none, none, "2024-05-05 12:00:00"⟩

/-- Witness for the C9 theorem at `c9Payload`: the enrichment extracts
Berlin/Germany from the text yet the structured values survive in the
record. -/
theorem structured_location_kept_witness :
    (normalize_summary (.str "ACME") c9Payload "2024-05-05 12:00:00"
       = .ok c9Rec ∧
     clean_text (jLookTotal (info_of c9Payload) "city") = .ok (some "Austin") ∧
     ("Austin" : String) ≠ "" ∧
     (extract_from_summary
       (some "It is headquartered in Berlin, Germany.")).city
       = some "Berlin") ∧
    (c9Rec.city = some "Austin" ∧ c9Rec.state = some "Texas" ∧
     c9Rec.country = some "United States") :=
  ⟨⟨rfl, rfl, by decide, rfl⟩,
   ⟨(structured_location_kept (.str "ACME") c9Payload "2024-05-05 12:00:00"
       c9Rec rfl).1 "Austin" rfl (by decide),
    (structured_location_kept (.str "ACME") c9Payload "2024-05-05 12:00:00"
       c9Rec rfl).2.1 "Texas" rfl (by decide),
    (structured_location_kept (.str "ACME") c9Payload "2024-05-05 12:00:00"
       c9Rec rfl).2.2 "United States" rfl (by decide)⟩⟩

/-! ### Claim C5: malformed payload recovery -/

theorem resolve_stock_empty (hint : JVal) :
    resolve_stock hint (.obj []) = .ok (pyOrJ hint .null) := by
  unfold resolve_stock pyOrJ
  by_cases hh : jTruthy hint = true
  · rw [if_pos hh, if_pos hh]
    rfl
  · rw [if_neg hh, if_neg hh]
    rfl

/-- Profile normalization of the empty mapping succeeds and yields a single
all-null record carrying only the (possibly falsy) symbol hint. -/
theorem normalize_summary_empty (hint : JVal) (now : String) :
    normalize_summary hint (.obj []) now = .ok
      ⟨pyOrJ hint .null, none, none, none, none, none, none, none, none,
       none, none, none, none, now⟩ := by
  unfold normalize_summary resolve_stock pyOrJ
  by_cases hh : jTruthy hint = true
  · simp only [if_pos hh]
    rfl
  · simp only [if_neg hh]
    rfl

/-- C5 (amended): for a stored payload value that is undecodable JSON, or
whose decoded root is neither a mapping nor a string, parse_json_value
returns the empty mapping without raising; statement normalization of the
empty mapping then yields zero records, while profile normalization yields a
single all-null record carrying only the symbol hint (which the caller skips
only when the hint is also missing). -/
theorem parse_json_value_recovers (loads : String → Option JVal)
    (unesc : String → String) (j : DBVal) :
    (∀ s, dbDecodedStr j = some s → loads s = none →
       loads (unesc (stripQuotes s)) = none →
       parse_json_value loads unesc j = .obj []) ∧
    (∀ s v, dbDecodedStr j = some s →
       (loads s = some v ∨
         (loads s = none ∧ loads (unesc (stripQuotes s)) = some v)) →
       (∀ es, v ≠ .obj es) → (∀ t, v ≠ .str t) →
       parse_json_value loads unesc j = .obj []) ∧
    (∀ v, j = .val v → dbDecodedStr j = none → (∀ es, v ≠ .obj es) →
       parse_json_value loads unesc j = .obj []) ∧
    (∀ symbol, normalize_financials symbol (.obj []) = .ok []) ∧
    (∀ hint now, normalize_summary hint (.obj []) now = .ok
       ⟨pyOrJ hint .null, none, none, none, none, none, none, none, none,
        none, none, none, none, now⟩) := by
  have hstr_branch : ∀ s, dbDecodedStr j = some s →
      parse_json_value loads unesc j
        = finalize_obj loads (loads_or_empty loads unesc s) := by
    intro s hs
    unfold parse_json_value
    rw [hs]
  refine ⟨?_, ?_, ?_, ?_, ?_⟩
  · intro s hs h1 h2
    rw [hstr_branch s hs]
    unfold loads_or_empty
    rw [h1, h2]
    rfl
  · intro s v hs hv hobj hstr
    rw [hstr_branch s hs]
    have hle : loads_or_empty loads unesc s = v := by
      unfold loads_or_empty
      rcases hv with h1 | ⟨h1, h2⟩
      · rw [h1]
      · rw [h1, h2]
    rw [hle]
    cases v
    case obj es => exact absurd rfl (hobj es)
    case str t => exact absurd rfl (hstr t)
    all_goals rfl
  · intro v hj hd hobj
    subst hj
    have hp : parse_json_value loads unesc (.val v) = finalize_obj loads v := by
      unfold parse_json_value
      rw [hd]
    rw [hp]
    cases v
    case obj es => exact absurd rfl (hobj es)
    case str t => simp [dbDecodedStr] at hd
    all_goals rfl
  · intro symbol
    rfl
  · exact normalize_summary_empty

/-- A concrete fragment of json.loads, agreeing with Python's json.loads on
exactly the listed inputs; used for the C5 witness and counterexample. -/
def jsonLoadsDemo : String → Option JVal
  | "[]" => some (.arr [])
  | "\"[]\"" => some (.str "[]")
  | "3" => some (.int 3)
  | _ => none

/-- C5 counterexample: the stored value `"[]"` (a JSON string literal whose
content is itself JSON) decodes to a non-mapping root, yet parse_json_value
returns the array `[]` — not the empty mapping; and a company whose payload
recovers to the empty mapping still yields one upserted profile record when
a symbol hint is present, not zero records. -/
theorem parse_json_value_cex :
    parse_json_value jsonLoadsDemo id (.val (.str "\"[]\"")) = .arr [] ∧
    JVal.arr [] ≠ .obj [] ∧
    process_summary_row jsonLoadsDemo id (.str "AAPL") (.val (.str "oops"))
      "2024-01-01 00:00:00"
      = .upserted ⟨.str "AAPL", none, none, none, none, none, none, none,
          none, none, none, none, none, "2024-01-01 00:00:00"⟩ :=
  ⟨rfl, fun h => JVal.noConfusion h, rfl⟩

/-- Witness for the amended C5 theorem at a concrete undecodable stored
value. -/
theorem parse_json_value_recovers_witness :
    (dbDecodedStr (.val (.str "oops")) = some "oops" ∧
     jsonLoadsDemo "oops" = none ∧
     jsonLoadsDemo (id (stripQuotes "oops")) = none) ∧
    (parse_json_value jsonLoadsDemo id (.val (.str "oops")) = .obj [] ∧
     normalize_financials "S" (.obj []) = .ok [] ∧
     normalize_summary (.str "AAPL") (.obj []) "2024-01-01 00:00:00" = .ok
       ⟨.str "AAPL", none, none, none, none, none, none, none, none, none,
        none, none, none, "2024-01-01 00:00:00"⟩) :=
  ⟨⟨rfl, rfl, rfl⟩,
   ⟨(parse_json_value_recovers jsonLoadsDemo id (.val (.str "oops"))).1
      "oops" rfl rfl rfl,
    (parse_json_value_recovers jsonLoadsDemo id (.val (.str "oops"))).2.2.2.1
      "S",
    (parse_json_value_recovers jsonLoadsDemo id (.val (.str "oops"))).2.2.2.2
      (.str "AAPL") "2024-01-01 00:00:00"⟩⟩

/-! ### Claim C8: the schema reconciler -/

/-- The DDL statements ensure_financials_table can execute, in source order:
the CREATE TABLE IF NOT EXISTS with the composite primary key, then the
repair sequence (ALTER ... DROP PRIMARY KEY, ALTER ... MODIFY COLUMN metric
VARCHAR(191) NOT NULL, ALTER ... MODIFY COLUMN stock VARCHAR(32) NOT NULL,
ALTER ... ADD PRIMARY KEY (stock, statement_type, metric, date)). -/
inductive FinStmt where
  | createFinancials
  | dropPrimaryKey
  | modifyMetricColumn
  | modifyStockColumn
  | addPrimaryKey
deriving DecidableEq

/-- A MySQL error as seen by the handler: just its errno. -/
structure DBErr where
  errno : Int
deriving DecidableEq

/-- The cursor environment: the outcome of executing each DDL statement
(none = success). -/
structure DBEnv where
  exec : FinStmt → Option DBErr

/-- ensure_financials_table from Financilas.py: try the CREATE; re-raise any
error whose errno is not 1170; on errno 1170 run the repair sequence, the
first three steps inside try/except-pass (their errors are swallowed), the
final ADD PRIMARY KEY unguarded.  Returns the trace of executed statements
and the propagated error, if any. -/
def ensure_financials_table (env : DBEnv) : List FinStmt × Option DBErr :=
  match env.exec .createFinancials with
  | none => ([.createFinancials], none)
  | some e =>
    if e.errno ≠ 1170 then ([.createFinancials], some e)
    else
      let _ := env.exec .dropPrimaryKey
      let t1 := [FinStmt.createFinancials, .dropPrimaryKey]
      let _ := env.exec .modifyMetricColumn
      let t2 := t1 ++ [FinStmt.modifyMetricColumn]
      let _ := env.exec .modifyStockColumn
      let t3 := t2 ++ [FinStmt.modifyStockColumn]
      (t3 ++ [FinStmt.addPrimaryKey], env.exec .addPrimaryKey)

/-- C8: every creation error except errno 1170 is re-raised unmodified with
no repair statement executed; errno 1170 triggers exactly the ordered repair
sequence — drop primary key (failure ignored), widen metric, widen stock,
then add the composite primary key — whose own outcome is the one
propagated. -/
theorem ensure_financials_table_spec (env : DBEnv) :
    (env.exec .createFinancials = none →
      ensure_financials_table env = ([.createFinancials], none)) ∧
    (∀ e, env.exec .createFinancials = some e → e.errno ≠ 1170 →
      ensure_financials_table env = ([.createFinancials], some e)) ∧
    (∀ e, env.exec .createFinancials = some e → e.errno = 1170 →
      ensure_financials_table env =
        ([.createFinancials, .dropPrimaryKey, .modifyMetricColumn,
          .modifyStockColumn, .addPrimaryKey], env.exec .addPrimaryKey)) := by
  have hp : ∀ e, env.exec .createFinancials = some e →
      ensure_financials_table env
        = if e.errno ≠ 1170 then ([FinStmt.createFinancials], some e)
          else ([.createFinancials, .dropPrimaryKey, .modifyMetricColumn,
            .modifyStockColumn, .addPrimaryKey], env.exec .addPrimaryKey) := by
    intro e he
    unfold ensure_financials_table
    rw [he]
    rfl
  refine ⟨?_, ?_, ?_⟩
  · intro h
    unfold ensure_financials_table
    rw [h]
  · intro e he hne
    rw [hp e he, if_pos hne]
  · intro e he h1170
    rw [hp e he, if_neg (by simp [h1170])]

/-- Witness for C8 at a concrete environment whose CREATE fails with errno
1170 and whose repair steps partially fail (errors swallowed). -/
theorem ensure_financials_table_spec_witness :
    (DBEnv.mk (fun s => match s with
       | .createFinancials => some ⟨1170⟩
       | .dropPrimaryKey => some ⟨1091⟩
       | _ => none)).exec .createFinancials = some ⟨1170⟩ ∧
    ensure_financials_table (DBEnv.mk (fun s => match s with
       | .createFinancials => some ⟨1170⟩
       | .dropPrimaryKey => some ⟨1091⟩
       | _ => none)) =
      ([.createFinancials, .dropPrimaryKey, .modifyMetricColumn,
        .modifyStockColumn, .addPrimaryKey], none) :=
  ⟨rfl,
   (ensure_financials_table_spec (DBEnv.mk (fun s => match s with
       | .createFinancials => some ⟨1170⟩
       | .dropPrimaryKey => some ⟨1091⟩
       | _ => none))).2.2 ⟨1170⟩ rfl rfl⟩

/-! ### details.py: the ingestion-side JSON sanitizer (C4) -/

/-- Zero-padding of a number to two digits, as strftime-style rendering. -/
def pad2 (n : Nat) : String :=
  if n < 10 then "0" ++ toString n else toString n

/-- Zero-padding of a number to four digits. -/
def pad4 (n : Nat) : String :=
  if n < 10 then "000" ++ toString n
  else if n < 100 then "00" ++ toString n
  else if n < 1000 then "0" ++ toString n
  else toString n

/-- Zero-padding of a number to six digits (microseconds). -/
def pad6 (n : Nat) : String :=
  if n < 10 then "00000" ++ toString n
  else if n < 100 then "0000" ++ toString n
  else if n < 1000 then "000" ++ toString n
  else if n < 10000 then "00" ++ toString n
  else if n < 100000 then "0" ++ toString n
  else toString n

/-- A datetime value (pd.Timestamp included, being a datetime subclass); the
timezone is carried as a UTC offset in minutes, `none` on a naive value. -/
structure PyDateTime where
  year : Nat
  month : Nat
  day : Nat
  hour : Nat
  minute : Nat
  second : Nat
  microsecond : Nat
  tzOffsetMin : Option Int
deriving DecidableEq

/-- date.isoformat(). -/
def isoformatD (d : PyDate) : String :=
  pad4 d.year ++ "-" ++ pad2 d.month ++ "-" ++ pad2 d.day

/-- Rendering of a UTC offset in minutes as the +HH:MM / -HH:MM suffix. -/
def tzSuffix (off : Int) : String :=
  if off < 0 then "-" ++ pad2 ((-off).toNat / 60) ++ ":" ++ pad2 ((-off).toNat % 60)
  else "+" ++ pad2 (off.toNat / 60) ++ ":" ++ pad2 (off.toNat % 60)

/-- datetime.isoformat(): the microseconds are printed only when nonzero and
the offset suffix only on an aware value. -/
def isoformatDT (t : PyDateTime) : String :=
  pad4 t.year ++ "-" ++ pad2 t.month ++ "-" ++ pad2 t.day ++ "T" ++
  pad2 t.hour ++ ":" ++ pad2 t.minute ++ ":" ++ pad2 t.second ++
  (if t.microsecond = 0 then "" else "." ++ pad6 t.microsecond) ++
  (match t.tzOffsetMin with
   | Option.none => ""
   | some off => tzSuffix off)

/-- Models obj.replace(tzinfo=timezone.utc), applied by clean_json when the
datetime is naive. -/
def fillUtc (t : PyDateTime) : PyDateTime :=
  match t.tzOffsetMin with
  | Option.none =>
    ⟨t.year, t.month, t.day, t.hour, t.minute, t.second, t.microsecond, some 0⟩
  | some _ => t

/-- Python values reaching clean_json in details.py.  numpy scalars keep
their own constructors since clean_json branches on them; `other` stands for
an object matched by none of the isinstance checks, carrying its str()
rendering; `bytes` covers bytes and bytearray. -/
inductive PyVal where
  | none
  | bool (b : Bool)
  | int (n : Int)
  | float (f : PFloat)
  | str (s : String)
  | bytes (bs : List Nat)
  | npInt (n : Int)
  | npFloat (f : PFloat)
  | npBool (b : Bool)
  | datetime (t : PyDateTime)
  | pydate (d : PyDate)
  | dict (entries : List (PyVal × PyVal))
  | list (elems : List PyVal)
  | tuple (elems : List PyVal)
  | set (elems : List PyVal)
  | other (s : String)

/-- pd.isna on one of these values: true exactly for a NaN float (None is
returned before the call is reached); on a container pd.isna raises and
clean_json swallows the exception, which coincides with returning false. -/
def pdIsna : PyVal → Bool
  | .float f => f.isNan
  | .npFloat f => f.isNan
  | _ => false

/-- Python dict insertion: an existing key keeps its position and takes the
new value, a new key is appended. -/
def dictUpsert (acc : List (String × PyVal)) (k : String) (v : PyVal) :
    List (String × PyVal) :=
  match acc with
  | [] => [(k, v)]
  | (k0, v0) :: rest =>
    if k0 = k then (k0, v) :: rest else (k0, v0) :: dictUpsert rest k v

/-- A dict comprehension over already-rendered keys: entries inserted left
to right, later duplicates overwriting in place. -/
def buildStrDict (l : List (String × PyVal)) : List (String × PyVal) :=
  l.foldl (fun acc kv => dictUpsert acc kv.1 kv.2) []

mutual
/-- details.py clean_json.  The str() builtin used on dict keys is passed as
the parameter `pystr`; the sanitizer itself only relies on it being the
identity on strings. -/
def clean_json (pystr : PyVal → String) (obj : PyVal) : PyVal :=
  if pdIsna obj then .none
  else match obj with
    | .none => .none
    | .npInt n => .int n
    | .npFloat f => if f.isNan || f.isInf then .none else .float f
    | .npBool b => .bool b
    | .float f => if f.isNan || f.isInf then .none else .float f
    | .int n => .int n
    | .bool b => .bool b
    | .str s => .str s
    | .bytes bs => .str (String.mk (decodeUtf8Replace bs))
    | .datetime t => .str (isoformatDT (fillUtc t))
    | .pydate d => .str (isoformatD d)
    | .dict es =>
      .dict ((buildStrDict (cleanEntries pystr es)).map
        (fun kv => (PyVal.str kv.1, kv.2)))
    | .list es => .list (cleanList pystr es)
    | .tuple es => .list (cleanList pystr es)
    | .set es => .list (cleanList pystr es)
    | .other s => .str s
termination_by sizeOf obj

/-- The elementwise sanitization of a list, tuple or set. -/
def cleanList (pystr : PyVal → String) (l : List PyVal) : List PyVal :=
  match l with
  | [] => []
  | v :: vs => clean_json pystr v :: cleanList pystr vs
termination_by sizeOf l

/-- The dict comprehension body: each key rendered by str, each value
sanitized recursively. -/
def cleanEntries (pystr : PyVal → String) (l : List (PyVal × PyVal)) :
    List (String × PyVal) :=
  match l with
  | [] => []
  | (k, v) :: kvs => (pystr k, clean_json pystr v) :: cleanEntries pystr kvs
termination_by sizeOf l
end

-- key lemmas

theorem dictUpsert_keys (acc : List (String × PyVal)) (k : String) (v : PyVal) :
    (dictUpsert acc k v).map Prod.fst =
      if k ∈ acc.map Prod.fst then acc.map Prod.fst
      else acc.map Prod.fst ++ [k] := by
  induction acc with
  | nil => simp [dictUpsert]
  | cons kv0 rest ih =>
    obtain ⟨k0, v0⟩ := kv0
    by_cases hk : k0 = k
    · subst hk
      simp [dictUpsert]
    · simp only [dictUpsert, if_neg hk, List.map_cons, ih]
      by_cases hm : k ∈ rest.map Prod.fst
      · simp [hm, Ne.symm hk]
      · simp [hm, Ne.symm hk]

theorem dictUpsert_keys_nodup {acc : List (String × PyVal)} {k : String}
    {v : PyVal} (h : (acc.map Prod.fst).Nodup) :
    ((dictUpsert acc k v).map Prod.fst).Nodup := by
  rw [dictUpsert_keys]
  by_cases hm : k ∈ acc.map Prod.fst
  · simpa [hm] using h
  · rw [if_neg hm, List.nodup_append]
    refine ⟨h, List.nodup_singleton k, ?_⟩
    intro a ha hb
    rw [List.mem_singleton] at hb
    subst hb
    exact hm ha

theorem buildStrDict_foldl_nodup (l : List (String × PyVal)) :
    ∀ acc : List (String × PyVal), (acc.map Prod.fst).Nodup →
      ((l.foldl (fun a kv => dictUpsert a kv.1 kv.2) acc).map Prod.fst).Nodup := by
  induction l with
  | nil => intro acc h; simpa using h
  | cons kv rest ih =>
    intro acc h
    rw [List.foldl_cons]
    exact ih _ (dictUpsert_keys_nodup h)

theorem buildStrDict_keys_nodup (l : List (String × PyVal)) :
    ((buildStrDict l).map Prod.fst).Nodup :=
  buildStrDict_foldl_nodup l [] (by simp)

theorem dictUpsert_not_mem {acc : List (String × PyVal)} {k : String}
    {v : PyVal} (h : k ∉ acc.map Prod.fst) :
    dictUpsert acc k v = acc ++ [(k, v)] := by
  induction acc with
  | nil => simp [dictUpsert]
  | cons kv0 rest ih =>
    obtain ⟨k0, v0⟩ := kv0
    simp only [List.map_cons, List.mem_cons] at h
    push_neg at h
    rw [show dictUpsert ((k0, v0) :: rest) k v =
      (if k0 = k then (k0, v) :: rest else (k0, v0) :: dictUpsert rest k v)
      from rfl]
    rw [if_neg (fun he => h.1 he.symm), ih h.2]
    simp

theorem buildStrDict_foldl_id (d : List (String × PyVal)) :
    ∀ acc : List (String × PyVal),
      (acc.map Prod.fst ++ d.map Prod.fst).Nodup →
      d.foldl (fun a kv => dictUpsert a kv.1 kv.2) acc = acc ++ d := by
  induction d with
  | nil => intro acc _; simp
  | cons kv rest ih =>
    intro acc h
    obtain ⟨k, v⟩ := kv
    simp only [List.map_cons] at h
    have hk : k ∉ acc.map Prod.fst := by
      intro hmem
      exact (List.nodup_append.mp h).2.2 hmem (List.mem_cons_self k _)
    rw [List.foldl_cons]
    have harr : ((acc ++ [(k, v)]).map Prod.fst ++ rest.map Prod.fst).Nodup := by
      simpa [List.append_assoc] using h
    calc rest.foldl (fun a kv => dictUpsert a kv.1 kv.2) (dictUpsert acc k v)
        = rest.foldl (fun a kv => dictUpsert a kv.1 kv.2) (acc ++ [(k, v)]) := by
          rw [dictUpsert_not_mem hk]
      _ = (acc ++ [(k, v)]) ++ rest := ih _ harr
      _ = acc ++ (k, v) :: rest := by simp

theorem buildStrDict_id {d : List (String × PyVal)}
    (h : (d.map Prod.fst).Nodup) : buildStrDict d = d := by
  have := buildStrDict_foldl_id d [] (by simpa using h)
  simpa [buildStrDict] using this

theorem dictUpsert_mem_or {acc : List (String × PyVal)} {k : String}
    {v : PyVal} {kv : String × PyVal} (h : kv ∈ dictUpsert acc k v) :
    kv ∈ acc ∨ kv = (k, v) := by
  induction acc with
  | nil => simp [dictUpsert] at h; simp [h]
  | cons kv0 rest ih =>
    obtain ⟨k0, v0⟩ := kv0
    rw [show dictUpsert ((k0, v0) :: rest) k v =
      (if k0 = k then (k0, v) :: rest else (k0, v0) :: dictUpsert rest k v)
      from rfl] at h
    by_cases hk : k0 = k
    · rw [if_pos hk] at h
      rcases List.mem_cons.mp h with h1 | h1
      · subst hk; right; simp [h1]
      · left; exact List.mem_cons_of_mem _ h1
    · rw [if_neg hk] at h
      rcases List.mem_cons.mp h with h1 | h1
      · left; simp [h1]
      · rcases ih h1 with h2 | h2
        · left; exact List.mem_cons_of_mem _ h2
        · right; exact h2

theorem buildStrDict_foldl_subset (d : List (String × PyVal)) :
    ∀ (acc : List (String × PyVal)) (kv : String × PyVal),
      kv ∈ d.foldl (fun a p => dictUpsert a p.1 p.2) acc → kv ∈ acc ∨ kv ∈ d := by
  induction d with
  | nil => intro acc kv h; exact Or.inl (by simpa using h)
  | cons p rest ih =>
    intro acc kv h
    rw [List.foldl_cons] at h
    rcases ih _ kv h with h1 | h1
    · rcases dictUpsert_mem_or h1 with h2 | h2
      · exact Or.inl h2
      · right
        rw [h2]
        exact List.mem_cons_self _ _
    · right; exact List.mem_cons_of_mem _ h1

theorem buildStrDict_subset {d : List (String × PyVal)} {kv : String × PyVal}
    (h : kv ∈ buildStrDict d) : kv ∈ d := by
  rcases buildStrDict_foldl_subset d [] kv h with h1 | h1
  · simp at h1
  · exact h1

theorem cleanEntries_map_str (pystr : PyVal → String)
    (hstr : ∀ s, pystr (PyVal.str s) = s) (m : List (String × PyVal))
    (h : ∀ kv ∈ m, clean_json pystr kv.2 = kv.2) :
    cleanEntries pystr (m.map (fun kv => (PyVal.str kv.1, kv.2))) = m := by
  induction m with
  | nil => simp [cleanEntries]
  | cons kv rest ih =>
    obtain ⟨k, v⟩ := kv
    have h1 : clean_json pystr v = v := h (k, v) (List.mem_cons_self _ _)
    simp only [List.map_cons, cleanEntries, hstr, h1]
    rw [ih (fun kv hkv => h kv (List.mem_cons_of_mem _ hkv))]

mutual
/-- clean_json maps every value to one of its own fixed points. -/
theorem clean_json_fix (pystr : PyVal → String)
    (hstr : ∀ s, pystr (PyVal.str s) = s) (x : PyVal) :
    clean_json pystr (clean_json pystr x) = clean_json pystr x := by
  cases x with
  | none => simp [clean_json, pdIsna]
  | bool b => simp [clean_json, pdIsna]
  | int n => simp [clean_json, pdIsna]
  | float f =>
    cases f <;> simp [clean_json, pdIsna, PFloat.isNan, PFloat.isInf]
  | str s => simp [clean_json, pdIsna]
  | bytes bs => simp [clean_json, pdIsna]
  | npInt n => simp [clean_json, pdIsna]
  | npFloat f =>
    cases f <;> simp [clean_json, pdIsna, PFloat.isNan, PFloat.isInf]
  | npBool b => simp [clean_json, pdIsna]
  | datetime t => simp [clean_json, pdIsna]
  | pydate d => simp [clean_json, pdIsna]
  | other s => simp [clean_json, pdIsna]
  | list es =>
    have h := cleanList_fix pystr hstr es
    simp [clean_json, pdIsna, h]
  | tuple es =>
    have h := cleanList_fix pystr hstr es
    simp [clean_json, pdIsna, h]
  | set es =>
    have h := cleanList_fix pystr hstr es
    simp [clean_json, pdIsna, h]
  | dict es =>
    have hvals : ∀ kv ∈ buildStrDict (cleanEntries pystr es),
        clean_json pystr kv.2 = kv.2 :=
      fun kv hkv =>
        cleanEntries_values_fix pystr hstr es kv (buildStrDict_subset hkv)
    have hmap : cleanEntries pystr
        ((buildStrDict (cleanEntries pystr es)).map
          (fun kv => (PyVal.str kv.1, kv.2))) =
        buildStrDict (cleanEntries pystr es) :=
      cleanEntries_map_str pystr hstr _ hvals
    have hkeys : ((buildStrDict (cleanEntries pystr es)).map Prod.fst).Nodup :=
      buildStrDict_keys_nodup _
    simp [clean_json, pdIsna, hmap, buildStrDict_id hkeys]
termination_by sizeOf x

/-- cleanList maps every list to one of its own fixed points. -/
theorem cleanList_fix (pystr : PyVal → String)
    (hstr : ∀ s, pystr (PyVal.str s) = s) (l : List PyVal) :
    cleanList pystr (cleanList pystr l) = cleanList pystr l := by
  cases l with
  | nil => simp [cleanList]
  | cons v vs =>
    have h1 := clean_json_fix pystr hstr v
    have h2 := cleanList_fix pystr hstr vs
    simp [cleanList, h1, h2]
termination_by sizeOf l

/-- Every value produced by cleanEntries is a fixed point of clean_json. -/
theorem cleanEntries_values_fix (pystr : PyVal → String)
    (hstr : ∀ s, pystr (PyVal.str s) = s) (l : List (PyVal × PyVal)) :
    ∀ kv ∈ cleanEntries pystr l, clean_json pystr kv.2 = kv.2 := by
  cases l with
  | nil => intro kv hkv; simp [cleanEntries] at hkv
  | cons kv0 kvs =>
    obtain ⟨k, v⟩ := kv0
    intro kv hkv
    rw [show cleanEntries pystr ((k, v) :: kvs) =
      (pystr k, clean_json pystr v) :: cleanEntries pystr kvs from by
        simp [cleanEntries]] at hkv
    rcases List.mem_cons.mp hkv with h1 | h1
    · rw [h1]
      exact clean_json_fix pystr hstr v
    · exact cleanEntries_values_fix pystr hstr kvs kv h1
termination_by sizeOf l
end

/-- C4: the JSON sanitizer in details.py is idempotent: for every input
value x (and any str() rendering of keys that is the identity on strings,
as Python's str is), clean_json (clean_json x) = clean_json x. -/
theorem clean_json_idempotent (pystr : PyVal → String)
    (hstr : ∀ s, pystr (PyVal.str s) = s) (x : PyVal) :
    clean_json pystr (clean_json pystr x) = clean_json pystr x :=
  clean_json_fix pystr hstr x

/-- A concrete str() instance for the witness: the identity on strings, as
Python's str is. -/
def pyStrDemo : PyVal → String
  | .str s => s
  | .int n => toString n
  | .none => "None"
  | _ => ""

/-- A concrete payload exercising the NaN, numpy, list, datetime and dict
branches of the sanitizer. -/
def c4Payload : PyVal :=
  .dict [(.str "price", .float .nan),
         (.int 1, .npInt 7),
         (.str "tags", .list [.str "a", .npBool true]),
         (.str "ts", .datetime ⟨2024, 5, 17, 9, 30, 0, 0, Option.none⟩)]

/-- Witness for C4 at a concrete payload and the concrete str instance. -/
theorem clean_json_idempotent_witness :
    clean_json pyStrDemo (clean_json pyStrDemo c4Payload) =
      clean_json pyStrDemo c4Payload :=
  clean_json_idempotent pyStrDemo (fun _ => rfl) c4Payload
